import Mathlib

set_option autoImplicit false

/-!
Shallow embedding of `src/ht.mjs` (the HTMS reactive-state engine).

The JavaScript heap is modelled explicitly: `St` holds the `Signal` heap,
the scope-object heap, the three persisted stores (`urlParams`,
`localStorage`, `sessionStorage`) and several append-only logs that record
the observable effects (listener invocations, expression evaluations,
console errors, tree insertions, DOM writes).  A scope chain — the chain of
`$childState` proxies produced by `createStateSignals` — is a list of scope
ids, innermost first; the chain structure never changes after creation,
so representing it as an immutable id list is faithful.  Listener closures
are represented by the inductive `Listener`; user expressions passed to
`scopedEval` by the inductive `Expr` (a constant or a scoped variable
read, the shapes the verified claims need).
-/

namespace HTMS

/-- JavaScript values, as far as the engine inspects them. -/
inductive Val where
  | undef
  | null
  | bool (b : Bool)
  | num (n : Int)
  | str (s : String)
  deriving DecidableEq

/-- JS string conversion, applied implicitly by `URLSearchParams.set` /
`Storage.setItem` when the persistence listeners write a value through. -/
def Val.toStr : Val → String
  | .undef => "undefined"
  | .null => "null"
  | .bool b => if b then "true" else "false"
  | .num n => toString n
  | .str s => s

/-- User-authored expression text, as run by `scopedEval`: either a constant
or a read of a scope variable (`this.name`), the shapes needed here. -/
inductive Expr where
  | const (v : Val)
  | read (name : String)
  deriving DecidableEq

/-- A listener closure held in a `Signal`'s listener set.
`ext` is an arbitrary external listener; `domSetter` is a binding setter
produced by `createSetter` (its DOM write is recorded in a log);
`recompute` is the dependency listener of `#let:v|dep` (line 222 of
`ht.mjs`), capturing the `$state` chain, the cased variable name and the
declaration expression; the three `persist*` listeners are the
write-through listeners of lines 229/238/242. -/
inductive Listener where
  | ext (n : Nat)
  | domSetter (elemId : Nat) (target : String)
  | recompute (chain : List Nat) (varName : String) (e : Expr)
  | persistUrl (name : String)
  | persistLocal (name : String)
  | persistSession (name : String)
  deriving DecidableEq

/-- `class Signal`: a current value and a set of listeners.  `new Signal()`
leaves `value` undefined.  The JS `Set` holds distinct closure references,
so it is modelled as a list in insertion order. -/
structure Signal where
  value : Val := .undef
  listeners : List Listener := []
  deriving DecidableEq

/-- The `childState` target object of `createStateSignals`: its own named
signals plus the `old` snapshot (`target[old]`). -/
structure ScopeObj where
  vars : List (String × Nat) := []
  oldv : List (String × Val) := []
  deriving DecidableEq

/-- The global mutable state: both heaps, the three persisted stores, and
append-only logs of the engine's observable effects.  `elems` maps an
element id to its `cleanup` list; each entry `(sigId, l)` stands for the
thunk `() => this.removeListener(listener)` pushed by `addListener`. -/
structure St where
  sigs : List Signal := []
  scopes : List ScopeObj := []
  urlParams : List (String × String) := []
  localStorage : List (String × String) := []
  sessionStorage : List (String × String) := []
  evalLog : List Expr := []
  invLog : List (Listener × Val) := []
  errLog : List (String × Nat × String) := []
  conLog : List Val := []
  insertions : List (String × String) := []
  domWrites : List (Nat × String × Val) := []
  elems : List (List (Nat × Listener)) := []
  deriving DecidableEq

def St.sigValue (st : St) (i : Nat) : Val := (st.sigs.getD i {}).value

def St.sigListeners (st : St) (i : Nat) : List Listener := (st.sigs.getD i {}).listeners

def St.scopeVars (st : St) (i : Nat) : List (String × Nat) := (st.scopes.getD i {}).vars

def St.setSigValue (st : St) (i : Nat) (v : Val) : St :=
  { st with sigs := st.sigs.set i { st.sigs.getD i {} with value := v } }

def St.setSigListeners (st : St) (i : Nat) (ls : List Listener) : St :=
  { st with sigs := st.sigs.set i { st.sigs.getD i {} with listeners := ls } }

/-- `target[old][key] = value` on the scope that owns the signal. -/
def St.setOldv (st : St) (sid : Nat) (k : String) (v : Val) : St :=
  { st with
    scopes := st.scopes.set sid
      (let sc := st.scopes.getD sid {}
       { sc with oldv := (k, v) :: sc.oldv }) }

/-- `target[key] = new Signal()` records the key in the scope object;
the fresh signal itself is appended to the heap by the caller. -/
def St.addVar (st : St) (sid : Nat) (k : String) (id : Nat) : St :=
  { st with
    scopes := st.scopes.set sid
      (let sc := st.scopes.getD sid {}
       { sc with vars := (k, id) :: sc.vars }) }

/-- The `has` trap of `createStateSignals`:
`key in $parentstate || key in target`, walking the whole chain.
The empty chain is the plain root object (`{}` for `setup(document.body)`,
`{ [component]: this }` for a component), which has no string keys. -/
def hasKeyChain (st : St) : List Nat → String → Bool
  | [], _ => false
  | sid :: rest, k => hasKeyChain st rest k || ((st.scopeVars sid).lookup k).isSome

/-- `if (!target[key]) target[key] = new Signal()` — resolve the key in the
scope object, creating a fresh signal when absent. -/
def ensureSig (st : St) (sid : Nat) (k : String) : Nat × St :=
  match (st.scopeVars sid).lookup k with
  | some id => (id, st)
  | none => (st.sigs.length, { st.addVar sid k st.sigs.length with sigs := st.sigs ++ [{}] })

/-- The `get` trap: delegate to the parent when any ancestor has the key,
otherwise use (or lazily create) the local signal and return its value.
Reading through the plain root object returns `undefined`. -/
def readVar (st : St) : List Nat → String → Val × St
  | [], _ => (.undef, st)
  | sid :: rest, k =>
    if hasKeyChain st rest k then readVar st rest k
    else
      match (st.scopeVars sid).lookup k with
      | some id => (st.sigValue id, st)
      | none => (.undef, { st.addVar sid k st.sigs.length with sigs := st.sigs ++ [{}] })

/-- One `scopedEval($state, 'return ' + src)` call: records the evaluation
in `evalLog` and computes the result, reading variables through the proxy
chain (which can lazily create signals). -/
def evalExpr (st : St) (chain : List Nat) (e : Expr) : Val × St :=
  let st1 : St := { st with evalLog := st.evalLog ++ [e] }
  match e with
  | .const v => (v, st1)
  | .read name => readVar st1 chain name

/-- `Storage.setItem` / `URLSearchParams.set`: overwrite the key. -/
def storeSet (l : List (String × String)) (k v : String) : List (String × String) :=
  (k, v) :: l.filter (fun p => p.1 != k)

/-- The two re-entrant operations of the engine, used as the argument of
the fuel-indexed interpreter `exec`. -/
inductive Task where
  | write (chain : List Nat) (k : String) (v : Val)
  | emit (ls : List Listener) (sigId : Nat)
  deriving DecidableEq

/-- The reactive core.
`.write` is the `set` trap of `createStateSignals` (lines 59–71): delegate
to the parent chain when any ancestor has the key, otherwise store the old
value, update the local signal and `emit()`.
`.emit` is `Signal.emit` (lines 42–46) iterating a snapshot of the listener
set, invoking each listener with the signal's current value (re-read at
each call, as `listener(this.value)` does); each invocation is recorded in
`invLog` and then its effect is interpreted.  A `recompute` listener
re-enters `.write`, which is why the interpreter carries fuel — the source
has no cycle guard and can genuinely diverge; every theorem below supplies
enough fuel for the executions it talks about. -/
def exec : Nat → St → Task → St
  | 0, st, _ => st
  | _ + 1, st, .write [] _ _ => st
  | fuel + 1, st, .write (sid :: rest) k v =>
    if hasKeyChain st rest k then exec fuel st (.write rest k v)
    else
      let p := ensureSig st sid k
      let st1 := ((p.2.setOldv sid k (p.2.sigValue p.1)).setSigValue p.1 v)
      exec fuel st1 (.emit (st1.sigListeners p.1) p.1)
  | _ + 1, st, .emit [] _ => st
  | fuel + 1, st, .emit (l :: rest) sigId =>
    let v := st.sigValue sigId
    let st1 : St := { st with invLog := st.invLog ++ [(l, v)] }
    let st2 : St :=
      match l with
      | .ext _ => st1
      | .domSetter e t => { st1 with domWrites := st1.domWrites ++ [(e, t, v)] }
      | .recompute chain name ex =>
        let q := evalExpr st1 chain ex
        exec fuel q.2 (.write chain name q.1)
      | .persistUrl name => { st1 with urlParams := storeSet st1.urlParams name v.toStr }
      | .persistLocal name => { st1 with localStorage := storeSet st1.localStorage name v.toStr }
      | .persistSession name =>
        { st1 with sessionStorage := storeSet st1.sessionStorage name v.toStr }
    exec fuel st2 (.emit rest sigId)

/-- `$state[k] = v` through the proxy chain. -/
def writeVar (fuel : Nat) (st : St) (chain : List Nat) (k : String) (v : Val) : St :=
  exec fuel st (.write chain k v)

/-- `Signal.addListener(listener, elem_to_clean_up)`: append to the
listener set (each JS call site passes a fresh closure, so `Set.add`
appends) and, when an element is given, push the unsubscribe thunk onto
that element's cleanup list. -/
def addListener (st : St) (sigId : Nat) (l : Listener) (cleanupElem : Option Nat) : St :=
  let st1 := st.setSigListeners sigId (st.sigListeners sigId ++ [l])
  match cleanupElem with
  | none => st1
  | some e => { st1 with elems := st1.elems.set e (st1.elems.getD e [] ++ [(sigId, l)]) }

/-- `Signal.removeListener`: `Set.delete` of one closure reference. -/
def removeListener (st : St) (sigId : Nat) (l : Listener) : St :=
  st.setSigListeners sigId ((st.sigListeners sigId).erase l)

/-- Character-level core of `kebabToCamelCase`: the source replaces every
(non-overlapping) occurrence of a hyphen followed by any character with
that character upper-cased, except that a second hyphen stays a literal
hyphen (`x[1] == '-' ? '-' : x[1].toUpperCase()`). -/
def k2cAux : List Char → List Char
  | [] => []
  | '-' :: c :: rest => if c = '-' then '-' :: k2cAux rest else c.toUpper :: k2cAux rest
  | c :: rest => c :: k2cAux rest

def kebabToCamelCase (s : String) : String := String.mk (k2cAux s.data)

/-- JS `String.prototype.split` with a one-character separator
(structural on the character list, so proofs and `decide` can run it). -/
def splitOnCharAux (c : Char) : List Char → List Char → List (List Char)
  | [], acc => [acc.reverse]
  | x :: xs, acc =>
    if x = c then acc.reverse :: splitOnCharAux c xs [] else splitOnCharAux c xs (x :: acc)

def splitOnChar (c : Char) (s : String) : List String :=
  (splitOnCharAux c s.data []).map String.mk

/-- `parentstate[key] || state[key]` (lines 199, 221, 227): the merged
parent map first, else the element's own (live) scope object.  A `Signal`
object is always truthy, so `||` falls through exactly on `undefined`. -/
def lookupSig (st : St) (parentstate : List (String × Nat)) (scopeId : Nat) (k : String) :
    Option Nat :=
  match parentstate.lookup k with
  | some id => some id
  | none => (st.scopeVars scopeId).lookup k

/-- The dependency loop of the `#let` branch (lines 220–225): for each
dependency name, resolve its signal via `parentstate[dep] || state[dep]`
(throwing — `none` — when both are `undefined`) and register the recompute
listener, owned by the element. -/
def addDepListeners (st : St) (parentstate : List (String × Nat)) (scopeId elemId : Nat)
    (chain : List Nat) (casedVarName : String) (expr : Expr) : List String → Option St
  | [] => some st
  | dep :: rest =>
    match lookupSig st parentstate scopeId dep with
    | none => none
    | some sigId =>
      addDepListeners (addListener st sigId (.recompute chain casedVarName expr) (some elemId))
        parentstate scopeId elemId chain casedVarName expr rest

/-- Lines 220–245 of the `#let` branch, after the initial value has been
assigned: register the dependency recompute listeners (lines 220–225,
`none` when a dependency's signal lookup throws), then resolve the
variable's own signal (line 227, `none` when that lookup throws) and
install the write-through listener.  Note the final branch: the source
tests `else if (sessionStorage)` — the global `sessionStorage` object,
which is always truthy — rather than `useSessionStorage`, so the session
write-through listener is installed for every non-url, non-local `#let`,
including plain `#let:name`. -/
def letRegister (st2 : St) (parentstate : List (String × Nat)) (scopeId elemId : Nat)
    (chain : List Nat) (casedVarName : String) (expr : Expr) (dependencies : List String)
    (useURL useLocalStorage : Bool) : Option St :=
  match addDepListeners st2 parentstate scopeId elemId chain casedVarName expr dependencies with
  | none => none
  | some st3 =>
    match lookupSig st3 parentstate scopeId casedVarName with
    | none => none
    | some sigId =>
      some
        (if useURL then addListener st3 sigId (.persistUrl casedVarName) (some elemId)
         else if useLocalStorage then addListener st3 sigId (.persistLocal casedVarName) (some elemId)
         else addListener st3 sigId (.persistSession casedVarName) (some elemId))

/-- The `#let` branch of `setupAttribute` (lines 203–245), after the
attribute name has been parsed into the three persistence flags, the
variable name and the dependency list (`setupLetAttr` does that parsing).
Initial value: the persisted store's value when present (`value ??` — the
default expression is then not evaluated), else the default expression's
result; the initial value is assigned through `$state` and only then are
the dependency and write-through listeners registered (`letRegister`).
Returns `none` when the source would throw (`s.addListener` on
`undefined`). -/
def setupLetParsed (fuel : Nat) (st : St) (elemId : Nat)
    (useURL useLocalStorage useSessionStorage : Bool)
    (varName : String) (dependencies : List String) (expr : Expr)
    (parentstate : List (String × Nat)) (scopeId : Nat) (chain : List Nat) : Option St :=
  let casedVarName := kebabToCamelCase varName
  let value : Option String :=
    if useURL then st.urlParams.lookup casedVarName
    else if useLocalStorage then st.localStorage.lookup casedVarName
    else if useSessionStorage then st.sessionStorage.lookup casedVarName
    else none
  let p : Val × St :=
    match value with
    | some s => (.str s, st)
    | none => evalExpr st chain expr
  let st2 := writeVar fuel p.2 chain casedVarName p.1
  letRegister st2 parentstate scopeId elemId chain casedVarName expr dependencies useURL
    useLocalStorage

/-- The store a persisted `#let` variant reads and writes through
(`useURL` wins over `useLocalStorage`; everything else falls into the
session branch, see `letRegister`). -/
def storeOf (useURL useLocalStorage : Bool) (st : St) : List (String × String) :=
  if useURL then st.urlParams
  else if useLocalStorage then st.localStorage
  else st.sessionStorage

/-- Attribute-name parsing of the `#let` branch:
`attr.name.startsWith('#let-url')` etc., and
`attr.name.split(':')[1].split('|')`. -/
def setupLetAttr (fuel : Nat) (st : St) (elemId : Nat) (attrName : String) (expr : Expr)
    (parentstate : List (String × Nat)) (scopeId : Nat) (chain : List Nat) : Option St :=
  let useURL := "#let-url".data.isPrefixOf attrName.data
  let useLocalStorage := "#let-local".data.isPrefixOf attrName.data
  let useSessionStorage := "#let-session".data.isPrefixOf attrName.data
  let parts := splitOnChar '|' ((splitOnChar ':' attrName).getD 1 "")
  setupLetParsed fuel st elemId useURL useLocalStorage useSessionStorage
    (parts.headD "") parts.tail expr parentstate scopeId chain

/-- Decides `/\$\{[^\}]+\}/.test(s)`: the scanner looks for `${`, then at
least one character other than `}`, then `}`. -/
def tmplClose : List Char → Bool
  | [] => false
  | '}' :: _ => true
  | _ :: rest => tmplClose rest

def tmplBody : List Char → Bool
  | [] => false
  | '}' :: _ => false
  | _ :: rest => tmplClose rest

def hasTemplate : List Char → Bool
  | '$' :: '{' :: rest => tmplBody rest || hasTemplate ('{' :: rest)
  | _ :: rest => hasTemplate rest
  | [] => false

def isTemplateLiteral (s : String) : Bool := hasTemplate s.data

/-- The non-template arm of the `:`/`::` binding branch of
`setupAttribute` (lines 198–202): the attribute value is taken as a plain
variable name, its signal is looked up via `parentstate[v] || state[v]` —
with no lazy creation, so a missing declaration leaves `s` undefined and
`s.addListener(setter, elem)` throws (`none`) — then the setter is
subscribed (owned by the element) and run once with `$state[v]`.
The template-literal arm (lines 184–197, dependency scraping) is dispatched
away by the `isTemplateLiteral` test and is not needed by the claims
verified here; `attrTarget` stands for the already-built `createSetter`
target. -/
def setupColonPlain (st : St) (elemId : Nat) (attrTarget : String) (attrValue : String)
    (parentstate : List (String × Nat)) (scopeId : Nat) (chain : List Nat) : Option St :=
  match lookupSig st parentstate scopeId attrValue with
  | none => none
  | some sigId =>
    let st1 := addListener st sigId (.domSetter elemId attrTarget) (some elemId)
    let q := readVar st1 chain attrValue
    some { q.2 with domWrites := q.2.domWrites ++ [(elemId, attrTarget, q.1)] }

/-- Running one element's `cleanup` list (lines 428–430): each entry is the
thunk `() => this.removeListener(listener)`, run in push order. -/
def runCleanups (st : St) : List (Nat × Listener) → St
  | [] => st
  | (sigId, l) :: rest => runCleanups (removeListener st sigId l) rest

/-- `undoSetup` (lines 424–433) recurses into all children before running
the element's own cleanup list; we model the traversal by the post-order
list of element ids it visits (children first, the element itself last).
`delete elem.state` only drops the node's reference to its scope; the
scope heap itself is not mutated. -/
def undoSetupPost (st : St) : List Nat → St
  | [] => st
  | e :: rest => undoSetupPost (runCleanups st (st.elems.getD e [])) rest

/-- The body-parse modes accepted by the `fetch` event modifier. -/
inductive ParseMode where
  | text
  | json
  | formData
  | blob
  | arrayBuffer
  deriving DecidableEq

/-- A settled host `Response`: its success flag, status, status text, the
body as text (`res.text()`), the body as an object's entries
(`Object.entries(await res.json())`), and the body as parsed by each
`res[datatype]()` method — parsing is the host's job, so the parses are
supplied as data. -/
structure FetchResponse where
  ok : Bool
  status : Nat
  statusText : String
  textBody : String := ""
  jsonEntries : List (String × Val) := []
  parsed : List (ParseMode × Val) := []
  deriving DecidableEq

def parseBody (res : FetchResponse) (m : ParseMode) : Val :=
  (res.parsed.lookup m).getD (Val.undef : Val)

/-- Splits a character list at the first `->`, JS
`query.split('->', 1)[0]` style: the first component is everything before
the first arrow; the second is `some rest` when an arrow was found. -/
def breakOnArrow : List Char → List Char × Option (List Char)
  | [] => ([], none)
  | '-' :: '>' :: rest => ([], some rest)
  | c :: rest =>
    let p := breakOnArrow rest
    (c :: p.1, p.2)

def isJsSpace (c : Char) : Bool := c = ' ' || c = '\t' || c = '\n' || c = '\r'

def jsTrim (s : String) : String :=
  String.mk (((s.data.dropWhile isJsSpace).reverse.dropWhile isJsSpace).reverse)

/-- `insertAtTarget` (lines 292–305) hands the selector/subtarget and the
content to the host document; the call is recorded. -/
def insertAtTarget (st : St) (target content : String) : St :=
  { st with insertions := st.insertions ++ [(target, content)] }

/-- Target `this`: `for (const [key, val] of Object.entries(await
res.json())) $state[key] = val`. -/
def writeEntries (fuel : Nat) (st : St) (chain : List Nat) : List (String × Val) → St
  | [] => st
  | (k, v) :: rest => writeEntries fuel (writeVar fuel st chain k v) chain rest

/-- One invocation of the handler produced by `createFetchHandler`
(lines 258–285), from the point where the response has settled: on
`!res.ok` log `(fetch args, status, statusText)` to the error console and
return — nothing else runs; otherwise resolve the target (the query minus
the fetch args, minus the first `->`, trimmed) as `this` / `console` / an
existing scope variable (`target in $state`, the `has` trap) / a tree
location. -/
def createFetchHandler (fuel : Nat) (query : String) (chain : List Nat)
    (datatype : Option ParseMode) (res : FetchResponse) (st : St) : St :=
  let fetchargs := String.mk (breakOnArrow query.data).1
  if !res.ok then
    { st with errLog := st.errLog ++ [(fetchargs, res.status, res.statusText)] }
  else
    let target :=
      jsTrim (match (breakOnArrow query.data).2 with
        | none => ""
        | some rest => String.mk rest)
    if target = "this" then writeEntries fuel st chain res.jsonEntries
    else if target = "console" then
      { st with conLog := st.conLog ++ [parseBody res (datatype.getD .text)] }
    else if hasKeyChain st chain target then
      writeVar fuel st chain target (parseBody res (datatype.getD .text))
    else insertAtTarget st target res.textBody

/-- `createStateSignals($parentstate)`: allocate a fresh, empty scope
object; the caller forms the chain by consing the new id onto the parent
chain (or onto `[]` when the parent is a plain object with no string
keys). -/
def createStateSignals (st : St) : St × Nat :=
  ({ st with scopes := st.scopes ++ [{}] }, st.scopes.length)

/-- The declared-external-attribute loop of `Component`'s constructor
(lines 326–330): for each attribute kept by the filter
`!['#', ':', '@'].includes(name[0])`, evaluate its default expression by
`scopedEval($state, ...)` — `$state` being the scope chain of the
*template element in the document*, the closure argument of
`setupComponent`, not the component's own scope — then set it as the
instance's host attribute (returned in the association list) and write it
into the component scope (`this.$state[attr] = value`). -/
def constructDeclaredAttrs (fuel : Nat) (st : St) (templateChain compChain : List Nat) :
    List (String × Expr) → St × List (String × Val)
  | [] => (st, [])
  | (name, e) :: rest =>
    let q := evalExpr st templateChain e
    let st2 := writeVar fuel q.2 compChain name q.1
    let r := constructDeclaredAttrs fuel st2 templateChain compChain rest
    (r.1, (name, q.1) :: r.2)

/-- Follows the spec's words, for comparison with `constructDeclaredAttrs`:
"for each declared external attribute, evaluate its default expression in
the (otherwise empty) component Scope" — i.e. the evaluation chain is the
component's own chain instead of the template element's. -/
def constructDeclaredAttrsAsSpecified (fuel : Nat) (st : St) (compChain : List Nat) :
    List (String × Expr) → St × List (String × Val)
  | [] => (st, [])
  | (name, e) :: rest =>
    let q := evalExpr st compChain e
    let st2 := writeVar fuel q.2 compChain name q.1
    let r := constructDeclaredAttrsAsSpecified fuel st2 compChain rest
    (r.1, (name, q.1) :: r.2)

/-- The constructor's second loop (lines 331–333) runs `setupAttribute`
over the template element's attributes with `parentstate = state =
this.state` — the live component scope object — and `$state =
this.$state`; this models its effect on the `#let`-family attributes
(`:`/`@`-prefixed attributes on a template element register bindings or
event listeners and declare nothing). -/
def setupLetAttrs (fuel : Nat) (elemId scopeId : Nat) (chain : List Nat) :
    St → List (String × Expr) → Option St
  | st, [] => some st
  | st, (n, e) :: rest =>
    match setupLetAttr fuel st elemId n e (st.scopeVars scopeId) scopeId chain with
    | none => none
    | some st2 => setupLetAttrs fuel elemId scopeId chain st2 rest

/-- The constructing phase of a component instance (lines 320–347):
`createStateSignals({ [component]: this })` gives the instance an isolated
scope whose parent object has no string keys — hence the chain `[sid]`
with an empty parent chain — then the declared attributes are initialized
and the template element's own `#let` attributes are set up against the
component scope.  The `connectedCallback`/`disconnectedCallback` script
buckets and the host's `attributeChangedCallback` reflection are outside
the claims verified here. -/
def constructComponent (fuel : Nat) (st : St) (templateElemId : Nat)
    (templateChain : List Nat) (declaredAttrs letAttrs : List (String × Expr)) :
    Option (St × Nat × List (String × Val)) :=
  let p := createStateSignals st
  let compChain : List Nat := [p.2]
  let q := constructDeclaredAttrs fuel p.1 templateChain compChain declaredAttrs
  match setupLetAttrs fuel templateElemId p.2 compChain q.1 letAttrs with
  | none => none
  | some st2 => some (st2, p.2, q.2)

/-- The scope at which the `set` trap's delegation lands: the outermost
scope of the chain whose own parent chain does not have the key.  When the
chain has the key at all, this is the outermost scope that declares it. -/
def resolveWrite (st : St) : List Nat → String → Option Nat
  | [], _ => none
  | sid :: rest, k => if hasKeyChain st rest k then resolveWrite st rest k else some sid

/-- Listeners that neither write scope variables nor touch the stores:
arbitrary external listeners and binding setters (whose DOM write is a
log entry). -/
def Listener.isInert : Listener → Bool
  | .ext _ => true
  | .domSetter _ _ => true
  | _ => false

/-- Listeners that never re-enter the scope `set` trap (everything except
the `#let` dependency recompute listener). -/
def Listener.noWrite : Listener → Bool
  | .recompute _ _ _ => false
  | _ => true

/-- The listener value occurs in no signal's listener set. -/
def Absent (l : Listener) (st : St) : Prop := ∀ i, l ∉ st.sigListeners i

/-- No recompute listener for the expression `e` is registered anywhere. -/
def NoRec (e : Expr) (st : St) : Prop :=
  ∀ i c n, Listener.recompute c n e ∉ st.sigListeners i

/-- Every signal declared in scope `sid` carries only non-writing
listeners. -/
def ScopeNoWrite (st : St) (sid : Nat) : Prop :=
  ∀ p ∈ st.scopeVars sid, ∀ l ∈ st.sigListeners p.2, l.noWrite = true

/-- Every listener anywhere in the document is non-writing (no `#let`
recompute listener is registered on any signal). -/
def AllNoWrite (st : St) : Prop :=
  ∀ i, ∀ l ∈ st.sigListeners i, l.noWrite = true

/-- The cased variable name a `#let`-family attribute declares. -/
def letCasedName (attrName : String) : String :=
  kebabToCamelCase ((splitOnChar '|' ((splitOnChar ':' attrName).getD 1 "")).headD "")

/-- The dependency names a `#let`-family attribute lists after `|`. -/
def letDeps (attrName : String) : List String :=
  (splitOnChar '|' ((splitOnChar ':' attrName).getD 1 "")).tail

/-- A two-scope sample document: scope 0 declares `x` (signal 0, value 5,
one external listener), scope 1 is an empty child scope; one element with
an empty cleanup list. -/
def exChain : St :=
  { sigs := [{ value := .num 5, listeners := [.ext 7] }]
    scopes := [{ vars := [("x", 0)] }, {}]
    elems := [[]] }

/-- A one-scope empty-root sample document. -/
def exRoot : St := { scopes := [{}], elems := [[]] }

/-- A one-scope sample document that declares `v1` (signal 0, no
listeners), ready for a dependent `#let:v2|v1` declaration. -/
def exDep : St :=
  { sigs := [{}]
    scopes := [{ vars := [("v1", 0)] }]
    elems := [[]] }

/-- A sample document for the component claims: the template's scope
(scope 0) declares `x` with value 5. -/
def exTmpl : St :=
  { sigs := [{ value := .num 5 }]
    scopes := [{ vars := [("x", 0)] }]
    elems := [[]] }

/-- A sample document for the teardown claim: element 0 registered the
external listener 3 on signal 0 (and the cleanup entry records it);
signal 0 also notifies the unrelated external listener 9. -/
def exCleanup : St :=
  { sigs := [{ value := .num 1, listeners := [.ext 9, .ext 3] }]
    scopes := [{ vars := [("x", 0)] }]
    elems := [[(0, .ext 3)]] }

/-- A one-scope sample document whose session store already holds `x`,
for the persisted-`#let` claim. -/
def exSess : St :=
  { scopes := [{}]
    sessionStorage := [("x", "seven")]
    elems := [[]] }

theorem getD_set {α : Type} (l : List α) (i j : Nat) (a d : α) :
    (l.set j a).getD i d = if j = i ∧ j < l.length then a else l.getD i d := by
  simp only [List.getD_eq_getElem?_getD, List.getElem?_set]
  by_cases h1 : j = i
  · subst h1
    by_cases h2 : j < l.length
    · simp [h2]
    · simp [h2, List.getElem?_eq_none (Nat.le_of_not_lt h2)]
  · simp [h1]

theorem getD_append_left {α : Type} (l l2 : List α) (i : Nat) (d : α) (h : i < l.length) :
    (l ++ l2).getD i d = l.getD i d := by
  simp [List.getD_eq_getElem?_getD, List.getElem?_append, h]

theorem getD_concat_self {α : Type} (l : List α) (a d : α) :
    (l ++ [a]).getD l.length d = a := by
  simp [List.getD_eq_getElem?_getD, List.getElem?_concat_length]

theorem getD_of_ge {α : Type} (l : List α) (i : Nat) (d : α) (h : l.length ≤ i) :
    l.getD i d = d := by
  simp [List.getD_eq_getElem?_getD, List.getElem?_eq_none h]

theorem lookup_cons_self {β : Type} (k : String) (v : β) (rest : List (String × β)) :
    List.lookup k ((k, v) :: rest) = some v := by
  simp [List.lookup]

theorem lookup_cons_ne {β : Type} (k k' : String) (v : β) (rest : List (String × β))
    (h : k ≠ k') : List.lookup k ((k', v) :: rest) = List.lookup k rest := by
  rw [List.lookup_cons, show (k == k') = false from beq_eq_false_iff_ne.mpr h]

theorem sigs_scopeUpdate (st : St) (sid : Nat) (sc : ScopeObj) :
    ({ st with scopes := st.scopes.set sid sc } : St).sigs = st.sigs := rfl

theorem scopeVars_setSigValue (st : St) (j : Nat) (v : Val) (i : Nat) :
    (st.setSigValue j v).scopeVars i = st.scopeVars i := rfl

theorem scopeVars_setSigListeners (st : St) (j : Nat) (ls : List Listener) (i : Nat) :
    (st.setSigListeners j ls).scopeVars i = st.scopeVars i := rfl

theorem scopeVars_setOldv (st : St) (sid : Nat) (k : String) (v : Val) (i : Nat) :
    (st.setOldv sid k v).scopeVars i = st.scopeVars i := by
  simp only [St.setOldv, St.scopeVars, getD_set]
  by_cases h : sid = i ∧ sid < st.scopes.length
  · rcases h with ⟨h1, h2⟩; subst h1; simp [h2]
  · simp [h]

theorem scopeVars_addVar_self (st : St) (sid : Nat) (k : String) (id : Nat)
    (h : sid < st.scopes.length) :
    (st.addVar sid k id).scopeVars sid = (k, id) :: st.scopeVars sid := by
  simp [St.addVar, St.scopeVars, getD_set, h]

theorem scopeVars_addVar_ne (st : St) (sid : Nat) (k : String) (id : Nat) (i : Nat)
    (h : i ≠ sid) : (st.addVar sid k id).scopeVars i = st.scopeVars i := by
  simp only [St.addVar, St.scopeVars, getD_set]
  rw [if_neg (fun hh => h hh.1.symm)]

theorem scopes_length_setOldv (st : St) (sid : Nat) (k : String) (v : Val) :
    (st.setOldv sid k v).scopes.length = st.scopes.length := by
  simp [St.setOldv]

theorem scopes_length_addVar (st : St) (sid : Nat) (k : String) (id : Nat) :
    (st.addVar sid k id).scopes.length = st.scopes.length := by
  simp [St.addVar]

theorem sigValue_setSigValue_self (st : St) (j : Nat) (v : Val) (h : j < st.sigs.length) :
    (st.setSigValue j v).sigValue j = v := by
  simp [St.setSigValue, St.sigValue, getD_set, h]

theorem sigValue_setSigValue_ne (st : St) (j : Nat) (v : Val) (i : Nat) (h : j ≠ i) :
    (st.setSigValue j v).sigValue i = st.sigValue i := by
  simp [St.setSigValue, St.sigValue, getD_set, h]

theorem sigListeners_setSigValue (st : St) (j : Nat) (v : Val) (i : Nat) :
    (st.setSigValue j v).sigListeners i = st.sigListeners i := by
  simp only [St.setSigValue, St.sigListeners, getD_set]
  by_cases h : j = i ∧ j < st.sigs.length
  · rcases h with ⟨h1, h2⟩; subst h1; simp [h2]
  · simp [h]

theorem sigValue_setSigListeners (st : St) (j : Nat) (ls : List Listener) (i : Nat) :
    (st.setSigListeners j ls).sigValue i = st.sigValue i := by
  simp only [St.setSigListeners, St.sigValue, getD_set]
  by_cases h : j = i ∧ j < st.sigs.length
  · rcases h with ⟨h1, h2⟩; subst h1; simp [h2]
  · simp [h]

theorem sigListeners_setSigListeners_self (st : St) (j : Nat) (ls : List Listener)
    (h : j < st.sigs.length) : (st.setSigListeners j ls).sigListeners j = ls := by
  simp [St.setSigListeners, St.sigListeners, getD_set, h]

theorem sigListeners_setSigListeners_ne (st : St) (j : Nat) (ls : List Listener) (i : Nat)
    (h : j ≠ i) : (st.setSigListeners j ls).sigListeners i = st.sigListeners i := by
  simp [St.setSigListeners, St.sigListeners, getD_set, h]

theorem sigs_length_setSigValue (st : St) (j : Nat) (v : Val) :
    (st.setSigValue j v).sigs.length = st.sigs.length := by
  simp [St.setSigValue]

theorem sigs_length_setSigListeners (st : St) (j : Nat) (ls : List Listener) :
    (st.setSigListeners j ls).sigs.length = st.sigs.length := by
  simp [St.setSigListeners]

theorem sigValue_sigAppend_lt (st : St) (s : Signal) (i : Nat) (h : i < st.sigs.length) :
    ({ st with sigs := st.sigs ++ [s] } : St).sigValue i = st.sigValue i := by
  simp [St.sigValue, List.getElem?_append, h]

theorem sigListeners_sigAppend_lt (st : St) (s : Signal) (i : Nat) (h : i < st.sigs.length) :
    ({ st with sigs := st.sigs ++ [s] } : St).sigListeners i = st.sigListeners i := by
  simp [St.sigListeners, List.getElem?_append, h]

theorem sigValue_sigAppend_self (st : St) (s : Signal) :
    ({ st with sigs := st.sigs ++ [s] } : St).sigValue st.sigs.length = s.value := by
  simp [St.sigValue, List.getElem?_concat_length]

theorem sigListeners_sigAppend_self (st : St) (s : Signal) :
    ({ st with sigs := st.sigs ++ [s] } : St).sigListeners st.sigs.length = s.listeners := by
  simp [St.sigListeners, List.getElem?_concat_length]

theorem sigListeners_of_ge (st : St) (i : Nat) (h : st.sigs.length ≤ i) :
    st.sigListeners i = [] := by
  simp [St.sigListeners, List.getElem?_eq_none h]

theorem sigValue_setOldv (st : St) (sid : Nat) (k : String) (v : Val) (i : Nat) :
    (st.setOldv sid k v).sigValue i = st.sigValue i := rfl

theorem sigListeners_setOldv (st : St) (sid : Nat) (k : String) (v : Val) (i : Nat) :
    (st.setOldv sid k v).sigListeners i = st.sigListeners i := rfl

theorem sigValue_addVar (st : St) (sid : Nat) (k : String) (id : Nat) (i : Nat) :
    (st.addVar sid k id).sigValue i = st.sigValue i := rfl

theorem sigListeners_addVar (st : St) (sid : Nat) (k : String) (id : Nat) (i : Nat) :
    (st.addVar sid k id).sigListeners i = st.sigListeners i := rfl

theorem hasKeyChain_congr (st st' : St) (chain : List Nat) (k : String)
    (h : ∀ i ∈ chain, st'.scopeVars i = st.scopeVars i) :
    hasKeyChain st' chain k = hasKeyChain st chain k := by
  induction chain with
  | nil => rfl
  | cons c rest ih =>
    simp only [hasKeyChain]
    rw [ih (fun i hi => h i (List.mem_cons_of_mem _ hi)), h c (List.mem_cons_self _ _)]

/-- The state-effect frame common to `readVar` and `evalExpr`: both can
only append fresh (listener-free, undefined) signals and register them in
scopes of the chain; nothing else changes. -/
structure ReadFrame (st st' : St) : Prop where
  scopesLen : st'.scopes.length = st.scopes.length
  sigsLen : st.sigs.length ≤ st'.sigs.length
  listenersFrame : ∀ i, st'.sigListeners i = st.sigListeners i ∨ st'.sigListeners i = []
  valsLow : ∀ i, i < st.sigs.length → st'.sigValue i = st.sigValue i
  invLogEq : st'.invLog = st.invLog
  urlEq : st'.urlParams = st.urlParams
  localEq : st'.localStorage = st.localStorage
  sessionEq : st'.sessionStorage = st.sessionStorage
  elemsEq : st'.elems = st.elems

theorem ReadFrame.refl (st : St) : ReadFrame st st :=
  ⟨rfl, Nat.le_refl _, fun _ => Or.inl rfl, fun _ _ => rfl, rfl, rfl, rfl, rfl, rfl⟩

theorem ReadFrame.trans {st st' st'' : St} (h1 : ReadFrame st st') (h2 : ReadFrame st' st'') :
    ReadFrame st st'' := by
  refine ⟨h2.scopesLen.trans h1.scopesLen, h1.sigsLen.trans h2.sigsLen, ?_, ?_,
    h2.invLogEq.trans h1.invLogEq, h2.urlEq.trans h1.urlEq, h2.localEq.trans h1.localEq,
    h2.sessionEq.trans h1.sessionEq, h2.elemsEq.trans h1.elemsEq⟩
  · intro i
    rcases h2.listenersFrame i with h | h
    · rw [h]; exact h1.listenersFrame i
    · exact Or.inr h
  · intro i hi
    rw [h2.valsLow i (Nat.lt_of_lt_of_le hi h1.sigsLen)]
    exact h1.valsLow i hi

theorem readVar_delegate_eq (st : St) (sid : Nat) (rest : List Nat) (k : String)
    (hh : hasKeyChain st rest k = true) : readVar st (sid :: rest) k = readVar st rest k := by
  simp [readVar, hh]

theorem readVar_some_eq (st : St) (sid : Nat) (rest : List Nat) (k : String) (id : Nat)
    (hh : hasKeyChain st rest k = false) (hl : (st.scopeVars sid).lookup k = some id) :
    readVar st (sid :: rest) k = (st.sigValue id, st) := by
  simp [readVar, hh, hl]

theorem readVar_fresh_eq (st : St) (sid : Nat) (rest : List Nat) (k : String)
    (hh : hasKeyChain st rest k = false) (hl : (st.scopeVars sid).lookup k = none) :
    readVar st (sid :: rest) k =
      (.undef, { st.addVar sid k st.sigs.length with sigs := st.sigs ++ [{}] }) := by
  simp [readVar, hh, hl]

theorem freshRec_scopeVars (st : St) (sid : Nat) (k : String) (j : Nat) :
    ({ st.addVar sid k st.sigs.length with sigs := st.sigs ++ [{}] } : St).scopeVars j =
      (st.addVar sid k st.sigs.length).scopeVars j := rfl

theorem freshRec_sigListeners (st : St) (sid : Nat) (k : String) (i : Nat) :
    ({ st.addVar sid k st.sigs.length with sigs := st.sigs ++ [{}] } : St).sigListeners i =
      ({ st with sigs := st.sigs ++ [{}] } : St).sigListeners i := rfl

theorem freshRec_sigValue (st : St) (sid : Nat) (k : String) (i : Nat) :
    ({ st.addVar sid k st.sigs.length with sigs := st.sigs ++ [{}] } : St).sigValue i =
      ({ st with sigs := st.sigs ++ [{}] } : St).sigValue i := rfl

theorem readVar_frame (st : St) (chain : List Nat) (k : String) :
    ReadFrame st (readVar st chain k).2 := by
  induction chain with
  | nil => exact ReadFrame.refl st
  | cons sid rest ih =>
    cases h : hasKeyChain st rest k with
    | true => rw [readVar_delegate_eq st sid rest k h]; exact ih
    | false =>
      cases hl : (st.scopeVars sid).lookup k with
      | some id => rw [readVar_some_eq st sid rest k id h hl]; exact ReadFrame.refl st
      | none =>
        rw [readVar_fresh_eq st sid rest k h hl]
        refine ⟨?_, ?_, ?_, ?_, rfl, rfl, rfl, rfl, rfl⟩
        · simp [St.addVar]
        · simp [St.addVar]
        · intro i
          rw [freshRec_sigListeners]
          rcases Nat.lt_trichotomy i st.sigs.length with hi | hi | hi
          · exact Or.inl (sigListeners_sigAppend_lt st _ i hi)
          · subst hi
            exact Or.inr (sigListeners_sigAppend_self st _)
          · refine Or.inr (sigListeners_of_ge _ i ?_)
            simpa using Nat.succ_le_of_lt hi
        · intro i hi
          rw [freshRec_sigValue]
          exact sigValue_sigAppend_lt st _ i hi

theorem readVar_evalLog (st : St) (chain : List Nat) (k : String) :
    (readVar st chain k).2.evalLog = st.evalLog := by
  induction chain with
  | nil => rfl
  | cons sid rest ih =>
    cases h : hasKeyChain st rest k with
    | true => rw [readVar_delegate_eq st sid rest k h]; exact ih
    | false =>
      cases hl : (st.scopeVars sid).lookup k with
      | some id => rw [readVar_some_eq st sid rest k id h hl]
      | none => rw [readVar_fresh_eq st sid rest k h hl]; rfl

theorem readVar_domWrites (st : St) (chain : List Nat) (k : String) :
    (readVar st chain k).2.domWrites = st.domWrites := by
  induction chain with
  | nil => rfl
  | cons sid rest ih =>
    cases h : hasKeyChain st rest k with
    | true => rw [readVar_delegate_eq st sid rest k h]; exact ih
    | false =>
      cases hl : (st.scopeVars sid).lookup k with
      | some id => rw [readVar_some_eq st sid rest k id h hl]
      | none => rw [readVar_fresh_eq st sid rest k h hl]; rfl

theorem addVar_scopeVars_of_ge (st : St) (sid : Nat) (k : String) (id : Nat)
    (hs : st.scopes.length ≤ sid) : (st.addVar sid k id).scopeVars = st.scopeVars := by
  simp [St.addVar, List.set_eq_of_length_le hs, St.scopeVars]

theorem readVar_scopeVars_not_mem (st : St) (chain : List Nat) (k : String) (j : Nat)
    (h : j ∉ chain) : (readVar st chain k).2.scopeVars j = st.scopeVars j := by
  induction chain with
  | nil => rfl
  | cons sid rest ih =>
    have hj1 : j ≠ sid := fun hh => h (hh ▸ List.mem_cons_self _ _)
    have hj2 : j ∉ rest := fun hh => h (List.mem_cons_of_mem _ hh)
    cases hh : hasKeyChain st rest k with
    | true => rw [readVar_delegate_eq st sid rest k hh]; exact ih hj2
    | false =>
      cases hl : (st.scopeVars sid).lookup k with
      | some id => rw [readVar_some_eq st sid rest k id hh hl]
      | none =>
        rw [readVar_fresh_eq st sid rest k hh hl, freshRec_scopeVars,
          scopeVars_addVar_ne _ _ _ _ _ hj1]

theorem readVar_lookup_ne (st : St) (chain : List Nat) (k : String) (j : Nat) (k' : String)
    (h : k' ≠ k) :
    ((readVar st chain k).2.scopeVars j).lookup k' = (st.scopeVars j).lookup k' := by
  induction chain with
  | nil => rfl
  | cons sid rest ih =>
    cases hh : hasKeyChain st rest k with
    | true => rw [readVar_delegate_eq st sid rest k hh]; exact ih
    | false =>
      cases hl : (st.scopeVars sid).lookup k with
      | some id => rw [readVar_some_eq st sid rest k id hh hl]
      | none =>
        rw [readVar_fresh_eq st sid rest k hh hl, freshRec_scopeVars]
        by_cases hj : j = sid
        · subst hj
          by_cases hs : j < st.scopes.length
          · rw [scopeVars_addVar_self _ _ _ _ hs, lookup_cons_ne _ _ _ _ h]
          · rw [addVar_scopeVars_of_ge _ _ _ _ (Nat.le_of_not_lt hs)]
        · rw [scopeVars_addVar_ne _ _ _ _ _ hj]

theorem readVar_scopeNoWrite (st : St) (chain : List Nat) (k : String) (sid : Nat)
    (h : ScopeNoWrite st sid) : ScopeNoWrite (readVar st chain k).2 sid := by
  induction chain with
  | nil => exact h
  | cons c rest ih =>
    cases hh : hasKeyChain st rest k with
    | true => rw [readVar_delegate_eq st c rest k hh]; exact ih
    | false =>
      cases hlk : (st.scopeVars c).lookup k with
      | some id => rw [readVar_some_eq st c rest k id hh hlk]; exact h
      | none =>
        rw [readVar_fresh_eq st c rest k hh hlk]
        intro p hp l hl
        rw [freshRec_scopeVars] at hp
        rw [freshRec_sigListeners] at hl
        by_cases hc : sid = c
        · subst hc
          by_cases hs : sid < st.scopes.length
          · rw [scopeVars_addVar_self _ _ _ _ hs] at hp
            rcases List.mem_cons.mp hp with hp | hp
            · subst hp
              rw [sigListeners_sigAppend_self st _] at hl
              exact absurd hl (List.not_mem_nil _)
            · rcases Nat.lt_or_ge p.2 st.sigs.length with hp2 | hp2
              · rw [sigListeners_sigAppend_lt st _ _ hp2] at hl
                exact h p hp l hl
              · rcases Nat.lt_or_ge p.2 (st.sigs.length + 1) with hp3 | hp3
                · have : p.2 = st.sigs.length := Nat.le_antisymm (Nat.lt_succ_iff.mp hp3) hp2
                  rw [this, sigListeners_sigAppend_self st _] at hl
                  exact absurd hl (List.not_mem_nil _)
                · rw [sigListeners_of_ge _ _ (by simpa using hp3)] at hl
                  exact absurd hl (List.not_mem_nil _)
          · rw [addVar_scopeVars_of_ge _ _ _ _ (Nat.le_of_not_lt hs)] at hp
            rcases Nat.lt_or_ge p.2 st.sigs.length with hp2 | hp2
            · rw [sigListeners_sigAppend_lt st _ _ hp2] at hl
              exact h p hp l hl
            · rcases Nat.lt_or_ge p.2 (st.sigs.length + 1) with hp3 | hp3
              · have : p.2 = st.sigs.length := Nat.le_antisymm (Nat.lt_succ_iff.mp hp3) hp2
                rw [this, sigListeners_sigAppend_self st _] at hl
                exact absurd hl (List.not_mem_nil _)
              · rw [sigListeners_of_ge _ _ (by simpa using hp3)] at hl
                exact absurd hl (List.not_mem_nil _)
        · rw [scopeVars_addVar_ne _ _ _ _ _ hc] at hp
          rcases Nat.lt_or_ge p.2 st.sigs.length with hp2 | hp2
          · rw [sigListeners_sigAppend_lt st _ _ hp2] at hl
            exact h p hp l hl
          · rcases Nat.lt_or_ge p.2 (st.sigs.length + 1) with hp3 | hp3
            · have : p.2 = st.sigs.length := Nat.le_antisymm (Nat.lt_succ_iff.mp hp3) hp2
              rw [this, sigListeners_sigAppend_self st _] at hl
              exact absurd hl (List.not_mem_nil _)
            · rw [sigListeners_of_ge _ _ (by simpa using hp3)] at hl
              exact absurd hl (List.not_mem_nil _)

theorem evalLog_bump_frame (st : St) (e : Expr) :
    ReadFrame st ({ st with evalLog := st.evalLog ++ [e] } : St) :=
  ⟨rfl, Nat.le_refl _, fun _ => Or.inl rfl, fun _ _ => rfl, rfl, rfl, rfl, rfl, rfl⟩

theorem evalExpr_frame (st : St) (chain : List Nat) (e : Expr) :
    ReadFrame st (evalExpr st chain e).2 := by
  cases e with
  | const v => exact evalLog_bump_frame st _
  | read n => exact (evalLog_bump_frame st _).trans (readVar_frame _ chain n)

theorem evalExpr_evalLog (st : St) (chain : List Nat) (e : Expr) :
    (evalExpr st chain e).2.evalLog = st.evalLog ++ [e] := by
  cases e with
  | const v => rfl
  | read n => exact readVar_evalLog _ chain n

theorem evalExpr_domWrites (st : St) (chain : List Nat) (e : Expr) :
    (evalExpr st chain e).2.domWrites = st.domWrites := by
  cases e with
  | const v => rfl
  | read n => exact readVar_domWrites _ chain n

theorem evalExpr_scopeVars_not_mem (st : St) (chain : List Nat) (e : Expr) (j : Nat)
    (h : j ∉ chain) : (evalExpr st chain e).2.scopeVars j = st.scopeVars j := by
  cases e with
  | const v => rfl
  | read n => exact readVar_scopeVars_not_mem _ chain n j h

theorem evalExpr_lookup_ne (st : St) (chain : List Nat) (e : Expr) (j : Nat) (k' : String)
    (h : ∀ n, e = Expr.read n → k' ≠ n) :
    ((evalExpr st chain e).2.scopeVars j).lookup k' = (st.scopeVars j).lookup k' := by
  cases e with
  | const v => rfl
  | read n => exact readVar_lookup_ne _ chain n j k' (h n rfl)

theorem evalExpr_scopeNoWrite (st : St) (chain : List Nat) (e : Expr) (sid : Nat)
    (h : ScopeNoWrite st sid) : ScopeNoWrite (evalExpr st chain e).2 sid := by
  cases e with
  | const v => exact h
  | read n => exact readVar_scopeNoWrite _ chain n sid h

theorem exec_emit_nil (fuel : Nat) (st : St) (i : Nat) : exec fuel st (.emit [] i) = st := by
  cases fuel <;> rfl

theorem writeVar_zero (st : St) (chain : List Nat) (k : String) (v : Val) :
    writeVar 0 st chain k v = st := rfl

theorem writeVar_nil (fuel : Nat) (st : St) (k : String) (v : Val) :
    writeVar fuel st [] k v = st := by
  cases fuel <;> rfl

theorem writeVar_delegate (fuel : Nat) (st : St) (sid : Nat) (rest : List Nat) (k : String)
    (v : Val) (h : hasKeyChain st rest k = true) :
    writeVar (fuel + 1) st (sid :: rest) k v = writeVar fuel st rest k v := by
  simp [writeVar, exec, h]

theorem ensureSig_some (st : St) (sid : Nat) (k : String) (id : Nat)
    (h : (st.scopeVars sid).lookup k = some id) : ensureSig st sid k = (id, st) := by
  simp [ensureSig, h]

theorem ensureSig_none (st : St) (sid : Nat) (k : String)
    (h : (st.scopeVars sid).lookup k = none) :
    ensureSig st sid k =
      (st.sigs.length, { st.addVar sid k st.sigs.length with sigs := st.sigs ++ [{}] }) := by
  simp [ensureSig, h]

theorem writeVar_local_existing (fuel : Nat) (st : St) (sid : Nat) (rest : List Nat)
    (k : String) (v : Val) (id : Nat) (hh : hasKeyChain st rest k = false)
    (hl : (st.scopeVars sid).lookup k = some id) :
    writeVar (fuel + 1) st (sid :: rest) k v =
      exec fuel ((st.setOldv sid k (st.sigValue id)).setSigValue id v)
        (.emit (st.sigListeners id) id) := by
  simp only [writeVar, exec, hh, Bool.false_eq_true, if_false, ensureSig_some st sid k id hl]
  rw [sigListeners_setSigValue, sigListeners_setOldv]

theorem writeVar_local_fresh (fuel : Nat) (st : St) (sid : Nat) (rest : List Nat) (k : String)
    (v : Val) (hh : hasKeyChain st rest k = false)
    (hl : (st.scopeVars sid).lookup k = none) :
    writeVar (fuel + 1) st (sid :: rest) k v =
      (({ st.addVar sid k st.sigs.length with sigs := st.sigs ++ [{}] } : St).setOldv sid k
        Val.undef).setSigValue st.sigs.length v := by
  simp only [writeVar, exec, hh, Bool.false_eq_true, if_false, ensureSig_none st sid k hl]
  rw [show ({ st.addVar sid k st.sigs.length with sigs := st.sigs ++ [{}] } : St).sigValue
      st.sigs.length = Val.undef from by rw [freshRec_sigValue, sigValue_sigAppend_self]]
  rw [sigListeners_setSigValue, sigListeners_setOldv, freshRec_sigListeners,
    sigListeners_sigAppend_self]
  exact exec_emit_nil _ _ _

theorem exec_emit_inert (ls : List Listener) : ∀ (fuel : Nat) (st : St) (i : Nat),
    (∀ l ∈ ls, l.isInert = true) → ls.length ≤ fuel →
    (exec fuel st (.emit ls i)).sigs = st.sigs ∧
    (exec fuel st (.emit ls i)).scopes = st.scopes ∧
    (exec fuel st (.emit ls i)).invLog = st.invLog ++ ls.map (fun l => (l, st.sigValue i)) ∧
    (exec fuel st (.emit ls i)).evalLog = st.evalLog ∧
    (exec fuel st (.emit ls i)).urlParams = st.urlParams ∧
    (exec fuel st (.emit ls i)).localStorage = st.localStorage ∧
    (exec fuel st (.emit ls i)).sessionStorage = st.sessionStorage ∧
    (exec fuel st (.emit ls i)).elems = st.elems := by
  induction ls with
  | nil =>
    intro fuel st i _ _
    rw [exec_emit_nil]
    simp
  | cons l rest ih =>
    intro fuel st i hin hf
    cases fuel with
    | zero => exact absurd hf (by simp)
    | succ f =>
      have hl := hin l (List.mem_cons_self _ _)
      have hrest : ∀ l' ∈ rest, l'.isInert = true :=
        fun l' h' => hin l' (List.mem_cons_of_mem _ h')
      have hfr : rest.length ≤ f := by simpa using hf
      cases l with
      | ext n =>
        simp only [exec]
        obtain ⟨h1, h2, h3, h4, h5, h6, h7, h8⟩ :=
          ih f { st with invLog := st.invLog ++ [(Listener.ext n, st.sigValue i)] } i hrest hfr
        refine ⟨h1, h2, ?_, h4, h5, h6, h7, h8⟩
        rw [h3]
        simp [List.append_assoc]
        exact fun _ _ => rfl
      | domSetter a b =>
        simp only [exec]
        obtain ⟨h1, h2, h3, h4, h5, h6, h7, h8⟩ :=
          ih f
            { st with invLog := st.invLog ++ [(Listener.domSetter a b, st.sigValue i)],
                      domWrites := st.domWrites ++ [(a, b, st.sigValue i)] } i hrest hfr
        refine ⟨h1, h2, ?_, h4, h5, h6, h7, h8⟩
        rw [h3]
        simp [List.append_assoc]
        exact fun _ _ => rfl
      | recompute c n e => exact absurd hl (by simp [Listener.isInert])
      | persistUrl n => exact absurd hl (by simp [Listener.isInert])
      | persistLocal n => exact absurd hl (by simp [Listener.isInert])
      | persistSession n => exact absurd hl (by simp [Listener.isInert])

theorem exec_emit_noWrite (ls : List Listener) : ∀ (fuel : Nat) (st : St) (i : Nat),
    (∀ l ∈ ls, l.noWrite = true) →
    (exec fuel st (.emit ls i)).sigs = st.sigs ∧
    (exec fuel st (.emit ls i)).scopes = st.scopes ∧
    (exec fuel st (.emit ls i)).evalLog = st.evalLog ∧
    (exec fuel st (.emit ls i)).elems = st.elems := by
  induction ls with
  | nil =>
    intro fuel st i _
    rw [exec_emit_nil]
    exact ⟨rfl, rfl, rfl, rfl⟩
  | cons l rest ih =>
    intro fuel st i hin
    cases fuel with
    | zero => exact ⟨rfl, rfl, rfl, rfl⟩
    | succ f =>
      have hl := hin l (List.mem_cons_self _ _)
      have hrest : ∀ l' ∈ rest, l'.noWrite = true :=
        fun l' h' => hin l' (List.mem_cons_of_mem _ h')
      cases l with
      | ext n =>
        simp only [exec]
        exact ih f _ i hrest
      | domSetter a b =>
        simp only [exec]
        exact ih f _ i hrest
      | recompute c n e => exact absurd hl (by simp [Listener.noWrite])
      | persistUrl n =>
        simp only [exec]
        exact ih f _ i hrest
      | persistLocal n =>
        simp only [exec]
        exact ih f _ i hrest
      | persistSession n =>
        simp only [exec]
        exact ih f _ i hrest

theorem scopeVars_ext {st st' : St} (h : st'.scopes = st.scopes) (i : Nat) :
    st'.scopeVars i = st.scopeVars i := by
  simp [St.scopeVars, h]

theorem sigValue_ext {st st' : St} (h : st'.sigs = st.sigs) (i : Nat) :
    st'.sigValue i = st.sigValue i := by
  simp [St.sigValue, h]

theorem sigListeners_ext {st st' : St} (h : st'.sigs = st.sigs) (i : Nat) :
    st'.sigListeners i = st.sigListeners i := by
  simp [St.sigListeners, h]

theorem invLog_setOldv (st : St) (sid : Nat) (k : String) (v : Val) :
    (st.setOldv sid k v).invLog = st.invLog := rfl

theorem invLog_setSigValue (st : St) (i : Nat) (v : Val) :
    (st.setSigValue i v).invLog = st.invLog := rfl

theorem sigs_setOldv (st : St) (sid : Nat) (k : String) (v : Val) :
    (st.setOldv sid k v).sigs = st.sigs := rfl

/-- A delegated write whose resolution target already exists and carries
only inert listeners: every scope's variable table is untouched (no
shadowing signal is created anywhere), the resolved signal takes the new
value, and the invocation log gains exactly one entry per listener of the
resolved signal, each carrying the new value. -/
theorem writeVar_resolved (chain : List Nat) : ∀ (fuel : Nat) (st : St) (k : String) (v : Val)
    (anc sigId : Nat),
    resolveWrite st chain k = some anc →
    (st.scopeVars anc).lookup k = some sigId →
    sigId < st.sigs.length →
    (∀ l ∈ st.sigListeners sigId, l.isInert = true) →
    chain.length + (st.sigListeners sigId).length + 1 ≤ fuel →
    (∀ j, (writeVar fuel st chain k v).scopeVars j = st.scopeVars j) ∧
    (writeVar fuel st chain k v).sigs.length = st.sigs.length ∧
    (writeVar fuel st chain k v).sigValue sigId = v ∧
    (writeVar fuel st chain k v).invLog =
      st.invLog ++ (st.sigListeners sigId).map (fun l => (l, v)) := by
  induction chain with
  | nil =>
    intro fuel st k v anc sigId hres
    exact absurd hres (by simp [resolveWrite])
  | cons c rest ih =>
    intro fuel st k v anc sigId hres hlk hsig hin hf
    cases fuel with
    | zero => exact absurd hf (by simp)
    | succ f =>
      cases hh : hasKeyChain st rest k with
      | true =>
        rw [writeVar_delegate f st c rest k v hh]
        refine ih f st k v anc sigId ?_ hlk hsig hin ?_
        · simpa [resolveWrite, hh] using hres
        · simp only [List.length_cons] at hf
          omega
      | false =>
        have hanc : anc = c := by
          simp [resolveWrite, hh] at hres
          exact hres.symm
        subst hanc
        rw [writeVar_local_existing f st anc rest k v sigId hh hlk]
        have hflen : (st.sigListeners sigId).length ≤ f := by
          simp only [List.length_cons] at hf
          omega
        obtain ⟨h1, h2, h3, _h4, _h5, _h6, _h7, _h8⟩ :=
          exec_emit_inert (st.sigListeners sigId) f
            ((st.setOldv anc k (st.sigValue sigId)).setSigValue sigId v) sigId hin hflen
        have hsigs1 : ((st.setOldv anc k (st.sigValue sigId)).setSigValue sigId v).sigs.length
            = st.sigs.length := by
          rw [sigs_length_setSigValue, sigs_setOldv]
        have hval1 : ((st.setOldv anc k (st.sigValue sigId)).setSigValue sigId v).sigValue sigId
            = v := by
          rw [sigValue_setSigValue_self]
          rw [sigs_setOldv]
          exact hsig
        refine ⟨?_, ?_, ?_, ?_⟩
        · intro j
          rw [scopeVars_ext h2 j, scopeVars_setSigValue, scopeVars_setOldv]
        · rw [show (exec f ((st.setOldv anc k (st.sigValue sigId)).setSigValue sigId v)
              (.emit (st.sigListeners sigId) sigId)).sigs
              = ((st.setOldv anc k (st.sigValue sigId)).setSigValue sigId v).sigs from h1]
          exact hsigs1
        · rw [sigValue_ext h1 sigId]
          exact hval1
        · rw [h3, invLog_setSigValue, invLog_setOldv]
          simp only [hval1]

/-- C1: writing a name that is declared in an ancestor scope through a
descendant chain updates the ancestor's Signal: no scope's variable table
changes and the signal heap does not grow (no shadowing local Signal), the
resolved ancestor signal takes the new value, and the invocation log gains
exactly one entry per listener registered on that Signal, each carrying
the new value — produced inside `writeVar` itself, i.e. synchronously
before the write returns.  The listeners are assumed inert (they do not
re-enter the scope writer), matching the spec's §5 non-reentrancy
assumption. -/
theorem C1_ancestor_write (st : St) (c0 : Nat) (rest : List Nat) (name : String) (v : Val)
    (anc sigId fuel : Nat)
    (hAnc : hasKeyChain st rest name = true)
    (hRes : resolveWrite st rest name = some anc)
    (hLk : (st.scopeVars anc).lookup name = some sigId)
    (hSig : sigId < st.sigs.length)
    (hInert : ∀ l ∈ st.sigListeners sigId, l.isInert = true)
    (hFuel : rest.length + (st.sigListeners sigId).length + 2 ≤ fuel) :
    (∀ j, (writeVar fuel st (c0 :: rest) name v).scopeVars j = st.scopeVars j) ∧
    (writeVar fuel st (c0 :: rest) name v).sigs.length = st.sigs.length ∧
    (writeVar fuel st (c0 :: rest) name v).sigValue sigId = v ∧
    (writeVar fuel st (c0 :: rest) name v).invLog =
      st.invLog ++ (st.sigListeners sigId).map (fun l => (l, v)) := by
  cases fuel with
  | zero => exact absurd hFuel (by omega)
  | succ f =>
    rw [writeVar_delegate f st c0 rest name v hAnc]
    refine writeVar_resolved rest f st name v anc sigId hRes hLk hSig hInert ?_
    omega

/-- Witness for C1: in `exChain`, scope 1 writes `x`, declared in its
ancestor scope 0 with one external listener. -/
theorem C1_ancestor_write_witness :
    (∀ j, (writeVar 10 exChain [1, 0] "x" (.num 9)).scopeVars j = exChain.scopeVars j) ∧
    (writeVar 10 exChain [1, 0] "x" (.num 9)).sigs.length = exChain.sigs.length ∧
    (writeVar 10 exChain [1, 0] "x" (.num 9)).sigValue 0 = .num 9 ∧
    (writeVar 10 exChain [1, 0] "x" (.num 9)).invLog =
      exChain.invLog ++ (exChain.sigListeners 0).map (fun l => (l, Val.num 9)) :=
  C1_ancestor_write exChain 1 [0] "x" (.num 9) 0 0 10 (by decide) (by decide) (by decide)
    (by decide) (by decide) (by decide)

/-- C2: reading a name that is undeclared in the whole chain lazily
creates exactly one Signal, locally in the scope read through, and
returns `undefined`; reading again without an intervening write returns
the same value and leaves the state exactly as it was (no further Signal
is created). -/
theorem C2_lazy_read (st : St) (c0 : Nat) (rest : List Nat) (name : String)
    (hUndecl : hasKeyChain st (c0 :: rest) name = false)
    (hScope : c0 < st.scopes.length)
    (hDistinct : c0 ∉ rest) :
    (readVar st (c0 :: rest) name).1 = .undef ∧
    (readVar st (c0 :: rest) name).2.sigs.length = st.sigs.length + 1 ∧
    (readVar st (c0 :: rest) name).2.scopeVars c0 =
      (name, st.sigs.length) :: st.scopeVars c0 ∧
    readVar (readVar st (c0 :: rest) name).2 (c0 :: rest) name =
      (.undef, (readVar st (c0 :: rest) name).2) := by
  have hsplit := hUndecl
  rw [hasKeyChain, Bool.or_eq_false_iff] at hsplit
  have h1 : hasKeyChain st rest name = false := hsplit.1
  have h2 : (st.scopeVars c0).lookup name = none := by
    rcases hl : (st.scopeVars c0).lookup name with _ | id
    · rfl
    · exfalso
      have := hsplit.2
      rw [hl] at this
      simp at this
  rw [readVar_fresh_eq st c0 rest name h1 h2]
  refine ⟨rfl, by simp [St.addVar], ?_, ?_⟩
  · rw [freshRec_scopeVars, scopeVars_addVar_self _ _ _ _ hScope]
  · have hcongr : ∀ i ∈ rest,
        ({ st.addVar c0 name st.sigs.length with sigs := st.sigs ++ [{}] } : St).scopeVars i
          = st.scopeVars i := by
      intro i hi
      refine (freshRec_scopeVars st c0 name i).trans (scopeVars_addVar_ne _ _ _ _ _ ?_)
      intro hh
      rw [hh] at hi
      exact hDistinct hi
    have hrest' : hasKeyChain
        ({ st.addVar c0 name st.sigs.length with sigs := st.sigs ++ [{}] } : St) rest name
        = false := by
      rw [hasKeyChain_congr st _ rest name hcongr]
      exact h1
    have hlk' : (({ st.addVar c0 name st.sigs.length with sigs := st.sigs ++ [{}] } : St).scopeVars
        c0).lookup name = some st.sigs.length := by
      rw [freshRec_scopeVars, scopeVars_addVar_self _ _ _ _ hScope, lookup_cons_self]
    rw [readVar_some_eq _ c0 rest name st.sigs.length hrest' hlk']
    rw [freshRec_sigValue, sigValue_sigAppend_self]

/-- Witness for C2: reading the undeclared `y` through `exChain`'s chain. -/
theorem C2_lazy_read_witness :
    (readVar exChain [1, 0] "y").1 = .undef ∧
    (readVar exChain [1, 0] "y").2.sigs.length = exChain.sigs.length + 1 ∧
    (readVar exChain [1, 0] "y").2.scopeVars 1 =
      ("y", exChain.sigs.length) :: exChain.scopeVars 1 ∧
    readVar (readVar exChain [1, 0] "y").2 [1, 0] "y" =
      (.undef, (readVar exChain [1, 0] "y").2) :=
  C2_lazy_read exChain 1 [0] "y" (by decide) (by decide) (by decide)

/-- C9: a fetch-directive invocation whose response has a non-success
status logs `(fetch args, status, statusText)` to the error console and
stops: the resulting state is the input state with exactly that error
entry appended — no scope variable written, no tree content inserted, no
store touched — and the handler returns normally (it is a total
function of the settled response). -/
theorem C9_fetch_failure_noop (fuel : Nat) (query : String) (chain : List Nat)
    (datatype : Option ParseMode) (res : FetchResponse) (st : St)
    (hFail : res.ok = false) :
    createFetchHandler fuel query chain datatype res st =
      { st with errLog := st.errLog ++
          [(String.mk (breakOnArrow query.data).1, res.status, res.statusText)] } := by
  simp [createFetchHandler, hFail]

/-- Witness for C9 at a concrete query and 404 response. -/
theorem C9_fetch_failure_noop_witness :
    createFetchHandler 5 "u -> this" [1, 0] none
        { ok := false, status := 404, statusText := "NF" } exChain =
      { exChain with errLog := exChain.errLog ++
          [(String.mk (breakOnArrow "u -> this".data).1, 404, "NF")] } :=
  C9_fetch_failure_noop 5 "u -> this" [1, 0] none
    { ok := false, status := 404, statusText := "NF" } exChain rfl

/-- C10: for a `:`/`::` binding whose attribute value is a plain variable
name (no `${...}` template), setup faults exactly when the name has no
signal in the merged parent map or in the element's own scope at setup
time — the lookup that `s.addListener(setter, elem)` dereferences is
`undefined` and no signal is created lazily — so such bindings carry the
precondition that the source variable is already declared. -/
theorem C10_plain_binding_requires_declared (st : St) (elemId : Nat) (attrTarget : String)
    (attrValue : String) (parentstate : List (String × Nat)) (scopeId : Nat)
    (chain : List Nat) (hTL : isTemplateLiteral attrValue = false) :
    setupColonPlain st elemId attrTarget attrValue parentstate scopeId chain = none ↔
      lookupSig st parentstate scopeId attrValue = none := by
  cases h : lookupSig st parentstate scopeId attrValue with
  | none => simp [setupColonPlain, h]
  | some id => simp [setupColonPlain, h]

/-- Witness for C10: binding `:text="missing"` in a root scope that never
declared `missing` faults. -/
theorem C10_plain_binding_requires_declared_witness :
    setupColonPlain exRoot 0 "text" "missing" [] 0 [0] = none ↔
      lookupSig exRoot [] 0 "missing" = none :=
  C10_plain_binding_requires_declared exRoot 0 "text" "missing" [] 0 [0] (by decide)

/-- C6 (code bug): the write-through branch for the non-url, non-local
`#let` variants tests the always-truthy global object `sessionStorage`
instead of the `useSessionStorage` flag, so after declaring plain
`#let:x` (default 7) in a fresh root scope, writing `"v"` to `x`
persists `x -> "v"` into the session store (the query string and the
durable local store stay empty), although a plain declaration must not
write any store. -/
theorem C6_plain_let_writes_session_store :
    (setupLetAttr 5 exRoot 0 "#let:x" (.const (.num 7)) [] 0 [0]).map
        (fun s =>
          ((writeVar 5 s [0] "x" (.str "v")).sessionStorage,
           (writeVar 5 s [0] "x" (.str "v")).urlParams,
           (writeVar 5 s [0] "x" (.str "v")).localStorage)) =
      some ([("x", "v")], [], []) := by decide

/-- C5 counterexample: declaring `#let-url:x` with default `"seven"` in a
fresh root scope with an empty URL store completes with the default as
the variable's initial value, yet the URL store still has no entry for
`x` — the write-through listener is registered only after the initial
assignment, so nothing is persisted at declaration time, contradicting
the claim's "immediately written through to the store at declaration
time". -/
theorem C5_counterexample_no_writethrough_at_declaration :
    (setupLetAttr 5 exRoot 0 "#let-url:x" (.const (.str "seven")) [] 0 [0]).map
        (fun s => (s.urlParams.lookup "x", (readVar s [0] "x").1)) =
      some (none, .str "seven") := by decide

/-- C8 counterexample: with the template declared in a document scope
where `x = 5`, constructing a component that declares the external
attribute `foo` with default expression `x` initializes `foo` to 5 — the
default was evaluated against the template element's document scope —
whereas evaluating it in the (otherwise empty) component scope, as the
claim states, yields `undefined`. -/
theorem C8_counterexample_default_reads_template_scope :
    (constructComponent 5 exTmpl 0 [0] [("foo", .read "x")] []).map (fun r => r.2.2) =
      some [("foo", .num 5)] ∧
    (constructDeclaredAttrsAsSpecified 5 (createStateSignals exTmpl).1
        [(createStateSignals exTmpl).2] [("foo", .read "x")]).2 = [("foo", .undef)] ∧
    Val.num 5 ≠ Val.undef :=
  ⟨by decide, by decide, by decide⟩

theorem setSigListeners_of_ge (st : St) (i : Nat) (ls : List Listener)
    (h : st.sigs.length ≤ i) : st.setSigListeners i ls = st := by
  simp [St.setSigListeners, List.set_eq_of_length_le h]

theorem removeListener_sublist (st : St) (s : Nat) (l : Listener) (i : Nat) :
    List.Sublist ((removeListener st s l).sigListeners i) (st.sigListeners i) := by
  by_cases hs : s < st.sigs.length
  · by_cases h : s = i
    · subst h
      rw [removeListener, sigListeners_setSigListeners_self _ _ _ hs]
      exact List.erase_sublist _ _
    · rw [removeListener, sigListeners_setSigListeners_ne _ _ _ _ h]
  · rw [removeListener, setSigListeners_of_ge _ _ _ (Nat.le_of_not_lt hs)]

theorem removeListener_elems (st : St) (s : Nat) (l : Listener) :
    (removeListener st s l).elems = st.elems := rfl

theorem removeListener_sigsLen (st : St) (s : Nat) (l : Listener) :
    (removeListener st s l).sigs.length = st.sigs.length := by
  rw [removeListener, sigs_length_setSigListeners]

theorem runCleanups_sublist (cl : List (Nat × Listener)) : ∀ (st : St) (i : Nat),
    List.Sublist ((runCleanups st cl).sigListeners i) (st.sigListeners i) := by
  induction cl with
  | nil => intro st i; exact List.Sublist.refl _
  | cons p rest ih =>
    intro st i
    exact (ih _ i).trans (removeListener_sublist st p.1 p.2 i)

theorem runCleanups_elems (cl : List (Nat × Listener)) : ∀ (st : St),
    (runCleanups st cl).elems = st.elems := by
  induction cl with
  | nil => intro st; rfl
  | cons p rest ih => intro st; exact (ih _).trans (removeListener_elems st p.1 p.2)

theorem undoSetupPost_sublist (order : List Nat) : ∀ (st : St) (i : Nat),
    List.Sublist ((undoSetupPost st order).sigListeners i) (st.sigListeners i) := by
  induction order with
  | nil => intro st i; exact List.Sublist.refl _
  | cons e rest ih =>
    intro st i
    exact (ih _ i).trans (runCleanups_sublist _ st i)

theorem undoSetupPost_elems (order : List Nat) : ∀ (st : St),
    (undoSetupPost st order).elems = st.elems := by
  induction order with
  | nil => intro st; rfl
  | cons e rest ih => intro st; exact (ih _).trans (runCleanups_elems _ st)

theorem runCleanups_removes (cl : List (Nat × Listener)) : ∀ (st : St) (s : Nat) (l : Listener),
    (s, l) ∈ cl → (∀ i, (st.sigListeners i).Nodup) →
    l ∉ (runCleanups st cl).sigListeners s := by
  induction cl with
  | nil => intro st s l hm; exact absurd hm (List.not_mem_nil _)
  | cons p rest ih =>
    intro st s l hm hnd
    have hnd1 : ∀ i, ((removeListener st p.1 p.2).sigListeners i).Nodup :=
      fun i => (hnd i).sublist (removeListener_sublist st p.1 p.2 i)
    rcases List.mem_cons.mp hm with hm | hm
    · have hps : p.1 = s := congrArg Prod.fst hm.symm
      have hpl : p.2 = l := congrArg Prod.snd hm.symm
      subst hps
      subst hpl
      have hgone : p.2 ∉ (removeListener st p.1 p.2).sigListeners p.1 := by
        by_cases hs : p.1 < st.sigs.length
        · rw [removeListener, sigListeners_setSigListeners_self _ _ _ hs]
          intro hmem
          exact (((hnd p.1).mem_erase_iff.mp hmem).1) rfl
        · rw [removeListener, setSigListeners_of_ge _ _ _ (Nat.le_of_not_lt hs),
            sigListeners_of_ge _ _ (Nat.le_of_not_lt hs)]
          exact List.not_mem_nil _
      intro hmem
      exact hgone ((runCleanups_sublist rest _ p.1).mem hmem)
    · exact ih _ s l hm hnd1

theorem undoSetupPost_removes (order : List Nat) : ∀ (st : St) (e s : Nat) (l : Listener),
    e ∈ order → (s, l) ∈ st.elems.getD e [] → (∀ i, (st.sigListeners i).Nodup) →
    l ∉ (undoSetupPost st order).sigListeners s := by
  induction order with
  | nil => intro st e s l hm; exact absurd hm (List.not_mem_nil _)
  | cons e' rest ih =>
    intro st e s l hm hcl hnd
    have hnd1 : ∀ i, ((runCleanups st (st.elems.getD e' [])).sigListeners i).Nodup :=
      fun i => (hnd i).sublist (runCleanups_sublist _ st i)
    by_cases he : e = e'
    · subst he
      have hgone := runCleanups_removes (st.elems.getD e []) st s l hcl hnd
      intro hmem
      exact hgone ((undoSetupPost_sublist rest _ s).mem hmem)
    · rcases List.mem_cons.mp hm with hm | hm
      · exact absurd hm he
      · refine ih _ e s l hm ?_ hnd1
        rw [runCleanups_elems _ st]
        exact hcl

theorem Absent.setSigValuePres {l : Listener} {st : St} (hA : Absent l st) (i : Nat) (v : Val) :
    Absent l (st.setSigValue i v) := by
  intro j
  rw [sigListeners_setSigValue]
  exact hA j

theorem Absent.setOldvPres {l : Listener} {st : St} (hA : Absent l st) (sid : Nat) (k : String)
    (v : Val) : Absent l (st.setOldv sid k v) := hA

theorem Absent.ensureSigPres {l : Listener} {st : St} (hA : Absent l st) (sid : Nat)
    (k : String) : Absent l (ensureSig st sid k).2 := by
  intro j
  cases hl : (st.scopeVars sid).lookup k with
  | some id => rw [ensureSig_some st sid k id hl]; exact hA j
  | none =>
    rw [ensureSig_none st sid k hl, freshRec_sigListeners]
    rcases Nat.lt_trichotomy j st.sigs.length with hj | hj | hj
    · rw [sigListeners_sigAppend_lt st _ j hj]; exact hA j
    · subst hj
      rw [sigListeners_sigAppend_self st _]
      exact List.not_mem_nil _
    · rw [sigListeners_of_ge _ j (by simpa using Nat.succ_le_of_lt hj)]
      exact List.not_mem_nil _

theorem Absent.readFramePres {l : Listener} {st st' : St} (hA : Absent l st)
    (hF : ReadFrame st st') : Absent l st' := by
  intro j
  rcases hF.listenersFrame j with h | h
  · rw [h]; exact hA j
  · rw [h]; exact List.not_mem_nil _

theorem exec_write_local (f : Nat) (st : St) (sid : Nat) (rest : List Nat) (k : String)
    (v : Val) (hh : hasKeyChain st rest k = false) :
    exec (f + 1) st (.write (sid :: rest) k v) =
      exec f
        (((ensureSig st sid k).2.setOldv sid k
          ((ensureSig st sid k).2.sigValue (ensureSig st sid k).1)).setSigValue
          (ensureSig st sid k).1 v)
        (.emit
          ((((ensureSig st sid k).2.setOldv sid k
            ((ensureSig st sid k).2.sigValue (ensureSig st sid k).1)).setSigValue
            (ensureSig st sid k).1 v).sigListeners (ensureSig st sid k).1)
          (ensureSig st sid k).1) := by
  simp only [exec, hh, Bool.false_eq_true, if_false]

/-- Once a listener value occurs in no signal's listener set, the
interpreter never invokes it again: the interpreter only ever removes or
freshly creates listener sets, and `emit` draws its invocations from a
snapshot of a current listener set. -/
theorem exec_no_invoke (l : Listener) : ∀ (fuel : Nat) (st : St) (task : Task),
    Absent l st →
    (∀ ls i, task = .emit ls i → l ∉ ls) →
    Absent l (exec fuel st task) ∧
    (∀ v', (l, v') ∈ (exec fuel st task).invLog → (l, v') ∈ st.invLog) := by
  intro fuel
  induction fuel with
  | zero => intro st task hA _; exact ⟨hA, fun _ h => h⟩
  | succ f ih =>
    intro st task hA hT
    cases task with
    | write chain k v =>
      cases chain with
      | nil => exact ⟨hA, fun _ h => h⟩
      | cons sid rest =>
        cases hh : hasKeyChain st rest k with
        | true =>
          rw [show exec (f + 1) st (.write (sid :: rest) k v) = exec f st (.write rest k v)
            from by simp [exec, hh]]
          exact ih st _ hA (fun ls i h => nomatch h)
        | false =>
          rw [exec_write_local f st sid rest k v hh]
          have hA1 : Absent l (((ensureSig st sid k).2.setOldv sid k
              ((ensureSig st sid k).2.sigValue (ensureSig st sid k).1)).setSigValue
              (ensureSig st sid k).1 v) :=
            (((hA.ensureSigPres sid k).setOldvPres sid k _).setSigValuePres _ v)
          have hInv1 : (((ensureSig st sid k).2.setOldv sid k
              ((ensureSig st sid k).2.sigValue (ensureSig st sid k).1)).setSigValue
              (ensureSig st sid k).1 v).invLog = st.invLog := by
            rw [invLog_setSigValue, invLog_setOldv]
            cases hl : (st.scopeVars sid).lookup k with
            | some id => rw [ensureSig_some st sid k id hl]
            | none => rw [ensureSig_none st sid k hl]; rfl
          obtain ⟨hA2, hP2⟩ := ih
            (((ensureSig st sid k).2.setOldv sid k
              ((ensureSig st sid k).2.sigValue (ensureSig st sid k).1)).setSigValue
              (ensureSig st sid k).1 v)
            (.emit
              ((((ensureSig st sid k).2.setOldv sid k
                ((ensureSig st sid k).2.sigValue (ensureSig st sid k).1)).setSigValue
                (ensureSig st sid k).1 v).sigListeners (ensureSig st sid k).1)
              (ensureSig st sid k).1)
            hA1
            (fun ls i h => by cases h; exact hA1 _)
          refine ⟨hA2, fun v' hv => ?_⟩
          rw [← hInv1]
          exact hP2 v' hv
    | emit ls sigId =>
      cases ls with
      | nil => exact ⟨hA, fun _ h => h⟩
      | cons l' rest =>
        have hni := hT (l' :: rest) sigId rfl
        have hne : l ≠ l' := fun hh => hni (hh ▸ List.mem_cons_self _ _)
        have hnr : l ∉ rest := fun hh => hni (List.mem_cons_of_mem _ hh)
        cases l' with
        | ext n =>
          simp only [exec]
          obtain ⟨hA2, hP2⟩ := ih
            { st with invLog := st.invLog ++ [(Listener.ext n, st.sigValue sigId)] }
            (.emit rest sigId) hA (fun ls i h => by cases h; exact hnr)
          refine ⟨hA2, fun v' hv => ?_⟩
          have h1 := hP2 v' hv
          rcases List.mem_append.mp h1 with h | h
          · exact h
          · exact absurd (congrArg Prod.fst (List.mem_singleton.mp h)) hne
        | domSetter a b =>
          simp only [exec]
          obtain ⟨hA2, hP2⟩ := ih
            { st with invLog := st.invLog ++ [(Listener.domSetter a b, st.sigValue sigId)],
                      domWrites := st.domWrites ++ [(a, b, st.sigValue sigId)] }
            (.emit rest sigId) hA (fun ls i h => by cases h; exact hnr)
          refine ⟨hA2, fun v' hv => ?_⟩
          have h1 := hP2 v' hv
          rcases List.mem_append.mp h1 with h | h
          · exact h
          · exact absurd (congrArg Prod.fst (List.mem_singleton.mp h)) hne
        | persistUrl n =>
          simp only [exec]
          obtain ⟨hA2, hP2⟩ := ih
            { st with invLog := st.invLog ++ [(Listener.persistUrl n, st.sigValue sigId)],
                      urlParams := storeSet st.urlParams n (st.sigValue sigId).toStr }
            (.emit rest sigId) hA (fun ls i h => by cases h; exact hnr)
          refine ⟨hA2, fun v' hv => ?_⟩
          have h1 := hP2 v' hv
          rcases List.mem_append.mp h1 with h | h
          · exact h
          · exact absurd (congrArg Prod.fst (List.mem_singleton.mp h)) hne
        | persistLocal n =>
          simp only [exec]
          obtain ⟨hA2, hP2⟩ := ih
            { st with invLog := st.invLog ++ [(Listener.persistLocal n, st.sigValue sigId)],
                      localStorage := storeSet st.localStorage n (st.sigValue sigId).toStr }
            (.emit rest sigId) hA (fun ls i h => by cases h; exact hnr)
          refine ⟨hA2, fun v' hv => ?_⟩
          have h1 := hP2 v' hv
          rcases List.mem_append.mp h1 with h | h
          · exact h
          · exact absurd (congrArg Prod.fst (List.mem_singleton.mp h)) hne
        | persistSession n =>
          simp only [exec]
          obtain ⟨hA2, hP2⟩ := ih
            { st with invLog := st.invLog ++ [(Listener.persistSession n, st.sigValue sigId)],
                      sessionStorage := storeSet st.sessionStorage n (st.sigValue sigId).toStr }
            (.emit rest sigId) hA (fun ls i h => by cases h; exact hnr)
          refine ⟨hA2, fun v' hv => ?_⟩
          have h1 := hP2 v' hv
          rcases List.mem_append.mp h1 with h | h
          · exact h
          · exact absurd (congrArg Prod.fst (List.mem_singleton.mp h)) hne
        | recompute c n ex =>
          have hA1 : Absent l { st with
              invLog := st.invLog ++ [(Listener.recompute c n ex, st.sigValue sigId)] } := hA
          have hAq : Absent l (evalExpr { st with
              invLog := st.invLog ++ [(Listener.recompute c n ex, st.sigValue sigId)] } c ex).2 :=
            hA1.readFramePres (evalExpr_frame _ c ex)
          obtain ⟨hAw, hPw⟩ := ih
            (evalExpr { st with
              invLog := st.invLog ++ [(Listener.recompute c n ex, st.sigValue sigId)] } c ex).2
            (.write c n (evalExpr { st with
              invLog := st.invLog ++ [(Listener.recompute c n ex, st.sigValue sigId)] } c ex).1)
            hAq (fun ls i h => nomatch h)
          obtain ⟨hA2, hP2⟩ := ih
            (exec f (evalExpr { st with
                invLog := st.invLog ++ [(Listener.recompute c n ex, st.sigValue sigId)] } c ex).2
              (.write c n (evalExpr { st with
                invLog := st.invLog ++ [(Listener.recompute c n ex, st.sigValue sigId)] } c ex).1))
            (.emit rest sigId) hAw (fun ls i h => by cases h; exact hnr)
          refine ⟨hA2, fun v' hv => ?_⟩
          have h1 := hP2 v' hv
          have h2 := hPw v' h1
          have h3 : (evalExpr { st with
              invLog := st.invLog ++ [(Listener.recompute c n ex, st.sigValue sigId)] } c
              ex).2.invLog = st.invLog ++ [(Listener.recompute c n ex, st.sigValue sigId)] :=
            (evalExpr_frame _ c ex).invLogEq
          rw [h3] at h2
          rcases List.mem_append.mp h2 with h | h
          · exact h
          · exfalso
            rcases List.mem_singleton.mp h with h
            exact hne (congrArg Prod.fst h)

/-- C3: tearing down a subtree (`undoSetup`, modelled by its post-order
visit list) runs every registered cleanup callback of every visited node,
unsubscribing every listener the node's bindings registered: afterwards a
listener owned by a torn-down node occurs in no signal's listener set,
and any subsequent write — however deeply it propagates through the
reactive graph — produces no new invocation-log entry for it.  `hOwn`
mirrors JS reference semantics: each occurrence of this listener value in
a signal's set is one this node registered (closures are per-call-site
unique), so it has a matching cleanup entry. -/
theorem C3_teardown_unsubscribes (st : St) (order : List Nat) (e sigId : Nat) (l : Listener)
    (hND : ∀ i, i < st.sigs.length → (st.sigListeners i).Nodup)
    (hMem : e ∈ order)
    (hCl : (sigId, l) ∈ st.elems.getD e [])
    (hOwn : ∀ i, i < st.sigs.length → l ∈ st.sigListeners i → (i, l) ∈ st.elems.getD e []) :
    Absent l (undoSetupPost st order) ∧
    (∀ fuel chain k v v',
      (l, v') ∈ (writeVar fuel (undoSetupPost st order) chain k v).invLog →
      (l, v') ∈ (undoSetupPost st order).invLog) := by
  have hND' : ∀ i, (st.sigListeners i).Nodup := by
    intro i
    by_cases h : i < st.sigs.length
    · exact hND i h
    · rw [sigListeners_of_ge _ _ (Nat.le_of_not_lt h)]
      exact List.nodup_nil
  have habs : Absent l (undoSetupPost st order) := by
    intro i hmem
    have hst : l ∈ st.sigListeners i := (undoSetupPost_sublist order st i).mem hmem
    have hi : i < st.sigs.length := by
      by_contra h
      rw [sigListeners_of_ge _ _ (Nat.le_of_not_lt h)] at hst
      exact List.not_mem_nil _ hst
    exact undoSetupPost_removes order st e i l hMem (hOwn i hi hst) hND' hmem
  refine ⟨habs, fun fuel chain k v v' hv => ?_⟩
  exact (exec_no_invoke l fuel (undoSetupPost st order) (.write chain k v) habs
    (fun ls i h => nomatch h)).2 v' hv

/-- Witness for C3: element 0 of `exCleanup` registered the external
listener 3 on signal 0; tearing it down removes the listener for good. -/
theorem C3_teardown_unsubscribes_witness :
    Absent (.ext 3) (undoSetupPost exCleanup [0]) ∧
    (∀ fuel chain k v v',
      (Listener.ext 3, v') ∈ (writeVar fuel (undoSetupPost exCleanup [0]) chain k v).invLog →
      (Listener.ext 3, v') ∈ (undoSetupPost exCleanup [0]).invLog) :=
  C3_teardown_unsubscribes exCleanup [0] 0 0 (.ext 3) (by decide) (by decide) (by decide)
    (by decide)

theorem readVar_sigListeners_low (st : St) (chain : List Nat) (k : String) (i : Nat)
    (h : i < st.sigs.length) :
    (readVar st chain k).2.sigListeners i = st.sigListeners i := by
  induction chain with
  | nil => rfl
  | cons sid rest ih =>
    cases hh : hasKeyChain st rest k with
    | true => rw [readVar_delegate_eq st sid rest k hh]; exact ih
    | false =>
      cases hl : (st.scopeVars sid).lookup k with
      | some id => rw [readVar_some_eq st sid rest k id hh hl]
      | none =>
        rw [readVar_fresh_eq st sid rest k hh hl, freshRec_sigListeners]
        exact sigListeners_sigAppend_lt st _ i h

theorem readVar_lookup_some_pres (st : St) (chain : List Nat) (k : String) (j : Nat)
    (k' : String) (id : Nat) (h : (st.scopeVars j).lookup k' = some id) :
    ((readVar st chain k).2.scopeVars j).lookup k' = some id := by
  induction chain with
  | nil => exact h
  | cons sid rest ih =>
    cases hh : hasKeyChain st rest k with
    | true => rw [readVar_delegate_eq st sid rest k hh]; exact ih
    | false =>
      cases hl : (st.scopeVars sid).lookup k with
      | some id2 => rw [readVar_some_eq st sid rest k id2 hh hl]; exact h
      | none =>
        rw [readVar_fresh_eq st sid rest k hh hl, freshRec_scopeVars]
        by_cases hj : j = sid
        · subst hj
          have hkk : k' ≠ k := fun he => by rw [he, hl] at h; exact Option.noConfusion h
          by_cases hs : j < st.scopes.length
          · rw [scopeVars_addVar_self _ _ _ _ hs, lookup_cons_ne _ _ _ _ hkk]
            exact h
          · rw [addVar_scopeVars_of_ge _ _ _ _ (Nat.le_of_not_lt hs)]
            exact h
        · rw [scopeVars_addVar_ne _ _ _ _ _ hj]
          exact h

theorem evalExpr_sigListeners_low (st : St) (chain : List Nat) (e : Expr) (i : Nat)
    (h : i < st.sigs.length) :
    (evalExpr st chain e).2.sigListeners i = st.sigListeners i := by
  cases e with
  | const v => rfl
  | read n => exact readVar_sigListeners_low _ chain n i h

theorem evalExpr_lookup_some_pres (st : St) (chain : List Nat) (e : Expr) (j : Nat)
    (k' : String) (id : Nat) (h : (st.scopeVars j).lookup k' = some id) :
    ((evalExpr st chain e).2.scopeVars j).lookup k' = some id := by
  cases e with
  | const v => exact h
  | read n => exact readVar_lookup_some_pres _ chain n j k' id h

theorem addListener_sigListeners_self (st : St) (sigId : Nat) (l : Listener)
    (ce : Option Nat) (h : sigId < st.sigs.length) :
    (addListener st sigId l ce).sigListeners sigId = st.sigListeners sigId ++ [l] := by
  cases ce with
  | none => exact sigListeners_setSigListeners_self _ _ _ h
  | some e2 =>
    show ({ st.setSigListeners sigId (st.sigListeners sigId ++ [l]) with
      elems := _ } : St).sigListeners sigId = _
    exact sigListeners_setSigListeners_self _ _ _ h

theorem addListener_sigListeners_ne (st : St) (sigId : Nat) (l : Listener) (ce : Option Nat)
    (i : Nat) (h : sigId ≠ i) :
    (addListener st sigId l ce).sigListeners i = st.sigListeners i := by
  cases ce with
  | none => exact sigListeners_setSigListeners_ne _ _ _ _ h
  | some e2 =>
    show ({ st.setSigListeners sigId (st.sigListeners sigId ++ [l]) with
      elems := _ } : St).sigListeners i = _
    exact sigListeners_setSigListeners_ne _ _ _ _ h

theorem addListener_scopeVars (st : St) (sigId : Nat) (l : Listener) (ce : Option Nat)
    (j : Nat) : (addListener st sigId l ce).scopeVars j = st.scopeVars j := by
  cases ce with
  | none => rfl
  | some e2 => rfl

theorem addListener_sigValue (st : St) (sigId : Nat) (l : Listener) (ce : Option Nat)
    (i : Nat) : (addListener st sigId l ce).sigValue i = st.sigValue i := by
  cases ce with
  | none => exact sigValue_setSigListeners _ _ _ _
  | some e2 =>
    show ({ st.setSigListeners sigId (st.sigListeners sigId ++ [l]) with
      elems := _ } : St).sigValue i = _
    exact sigValue_setSigListeners _ _ _ _

theorem addListener_evalLog (st : St) (sigId : Nat) (l : Listener) (ce : Option Nat) :
    (addListener st sigId l ce).evalLog = st.evalLog := by
  cases ce with
  | none => rfl
  | some e2 => rfl

theorem addListener_stores (st : St) (sigId : Nat) (l : Listener) (ce : Option Nat) :
    (addListener st sigId l ce).urlParams = st.urlParams ∧
    (addListener st sigId l ce).localStorage = st.localStorage ∧
    (addListener st sigId l ce).sessionStorage = st.sessionStorage := by
  cases ce with
  | none => exact ⟨rfl, rfl, rfl⟩
  | some e2 => exact ⟨rfl, rfl, rfl⟩

theorem addListener_sigs_length (st : St) (sigId : Nat) (l : Listener) (ce : Option Nat) :
    (addListener st sigId l ce).sigs.length = st.sigs.length := by
  cases ce with
  | none => exact sigs_length_setSigListeners _ _ _
  | some e2 =>
    show ({ st.setSigListeners sigId (st.sigListeners sigId ++ [l]) with
      elems := _ } : St).sigs.length = _
    exact sigs_length_setSigListeners _ _ _

theorem addListener_scopes_length (st : St) (sigId : Nat) (l : Listener) (ce : Option Nat) :
    (addListener st sigId l ce).scopes.length = st.scopes.length := by
  cases ce with
  | none => rfl
  | some e2 => rfl

theorem evalLog_setOldv (st : St) (sid : Nat) (k : String) (v : Val) :
    (st.setOldv sid k v).evalLog = st.evalLog := rfl

theorem evalLog_setSigValue (st : St) (i : Nat) (v : Val) :
    (st.setSigValue i v).evalLog = st.evalLog := rfl

theorem lookup_storeSet_self (l : List (String × String)) (k v : String) :
    (storeSet l k v).lookup k = some v := lookup_cons_self _ _ _

theorem exec_emit_cons_persistUrl (f : Nat) (st : St) (n : String) (rest : List Listener)
    (i : Nat) :
    exec (f + 1) st (.emit (.persistUrl n :: rest) i) =
      exec f
        { st with invLog := st.invLog ++ [(Listener.persistUrl n, st.sigValue i)],
                  urlParams := storeSet st.urlParams n (st.sigValue i).toStr }
        (.emit rest i) := by
  simp only [exec]

theorem exec_emit_cons_persistLocal (f : Nat) (st : St) (n : String) (rest : List Listener)
    (i : Nat) :
    exec (f + 1) st (.emit (.persistLocal n :: rest) i) =
      exec f
        { st with invLog := st.invLog ++ [(Listener.persistLocal n, st.sigValue i)],
                  localStorage := storeSet st.localStorage n (st.sigValue i).toStr }
        (.emit rest i) := by
  simp only [exec]

theorem exec_emit_cons_persistSession (f : Nat) (st : St) (n : String) (rest : List Listener)
    (i : Nat) :
    exec (f + 1) st (.emit (.persistSession n :: rest) i) =
      exec f
        { st with invLog := st.invLog ++ [(Listener.persistSession n, st.sigValue i)],
                  sessionStorage := storeSet st.sessionStorage n (st.sigValue i).toStr }
        (.emit rest i) := by
  simp only [exec]

theorem exec_emit_cons_recompute (f : Nat) (st : St) (c : List Nat) (n : String) (ex : Expr)
    (rest : List Listener) (i : Nat) :
    exec (f + 1) st (.emit (.recompute c n ex :: rest) i) =
      exec f
        (exec f
          (evalExpr { st with
            invLog := st.invLog ++ [(Listener.recompute c n ex, st.sigValue i)] } c ex).2
          (.write c n
            (evalExpr { st with
              invLog := st.invLog ++ [(Listener.recompute c n ex, st.sigValue i)] } c ex).1))
        (.emit rest i) := by
  simp only [exec]

/-- The full effect of a write that creates its variable locally (the
chain head's scope gains the entry, a fresh signal holding the value is
appended, and nothing else changes — the fresh signal has no listeners,
so the emit is a no-op). -/
theorem writeVar_fresh_facts (fuel : Nat) (st : St) (sid : Nat) (k : String) (v : Val)
    (hl : (st.scopeVars sid).lookup k = none) (hs : sid < st.scopes.length) :
    (writeVar (fuel + 1) st [sid] k v).scopeVars sid = (k, st.sigs.length) :: st.scopeVars sid ∧
    (∀ j, j ≠ sid → (writeVar (fuel + 1) st [sid] k v).scopeVars j = st.scopeVars j) ∧
    (writeVar (fuel + 1) st [sid] k v).sigs.length = st.sigs.length + 1 ∧
    (writeVar (fuel + 1) st [sid] k v).sigValue st.sigs.length = v ∧
    (writeVar (fuel + 1) st [sid] k v).sigListeners st.sigs.length = [] ∧
    (∀ i, i < st.sigs.length →
      (writeVar (fuel + 1) st [sid] k v).sigListeners i = st.sigListeners i) ∧
    (∀ i, i < st.sigs.length →
      (writeVar (fuel + 1) st [sid] k v).sigValue i = st.sigValue i) ∧
    (writeVar (fuel + 1) st [sid] k v).evalLog = st.evalLog ∧
    (writeVar (fuel + 1) st [sid] k v).scopes.length = st.scopes.length ∧
    (writeVar (fuel + 1) st [sid] k v).urlParams = st.urlParams ∧
    (writeVar (fuel + 1) st [sid] k v).localStorage = st.localStorage ∧
    (writeVar (fuel + 1) st [sid] k v).sessionStorage = st.sessionStorage ∧
    (writeVar (fuel + 1) st [sid] k v).elems = st.elems := by
  rw [writeVar_local_fresh fuel st sid [] k v rfl hl]
  refine ⟨?_, ?_, ?_, ?_, ?_, ?_, ?_, ?_, ?_, ?_, ?_, ?_, ?_⟩
  · rw [scopeVars_setSigValue, scopeVars_setOldv, freshRec_scopeVars,
      scopeVars_addVar_self _ _ _ _ hs]
  · intro j hj
    rw [scopeVars_setSigValue, scopeVars_setOldv, freshRec_scopeVars,
      scopeVars_addVar_ne _ _ _ _ _ hj]
  · rw [sigs_length_setSigValue, sigs_setOldv]
    simp [St.addVar]
  · rw [sigValue_setSigValue_self]
    rw [sigs_setOldv]
    simp [St.addVar]
  · rw [sigListeners_setSigValue, sigListeners_setOldv, freshRec_sigListeners,
      sigListeners_sigAppend_self]
  · intro i hi
    rw [sigListeners_setSigValue, sigListeners_setOldv, freshRec_sigListeners,
      sigListeners_sigAppend_lt st _ i hi]
  · intro i hi
    rw [sigValue_setSigValue_ne _ _ _ _ (Nat.ne_of_gt hi), sigValue_setOldv, freshRec_sigValue,
      sigValue_sigAppend_lt st _ i hi]
  · rfl
  · rw [show ((({ st.addVar sid k st.sigs.length with sigs := st.sigs ++ [{}] } : St).setOldv
      sid k Val.undef).setSigValue st.sigs.length v).scopes.length
      = (({ st.addVar sid k st.sigs.length with sigs := st.sigs ++ [{}] } : St).setOldv
      sid k Val.undef).scopes.length from rfl]
    rw [scopes_length_setOldv]
    simp [St.addVar]
  · rfl
  · rfl
  · rfl
  · rfl

theorem addListener_sigListeners_of_ge (st : St) (sigId : Nat) (l : Listener)
    (ce : Option Nat) (i : Nat) (h : st.sigs.length ≤ sigId) :
    (addListener st sigId l ce).sigListeners i = st.sigListeners i := by
  cases ce with
  | none =>
    rw [show addListener st sigId l none
      = st.setSigListeners sigId (st.sigListeners sigId ++ [l]) from rfl]
    rw [setSigListeners_of_ge _ _ _ h]
  | some e2 =>
    show ({ st.setSigListeners sigId (st.sigListeners sigId ++ [l]) with
      elems := _ } : St).sigListeners i = _
    rw [setSigListeners_of_ge _ _ _ h]
    rfl

theorem NoRec.toAbsent {e : Expr} {st : St} (h : NoRec e st) (c : List Nat) (n : String) :
    Absent (.recompute c n e) st := fun i => h i c n

theorem NoRec.ofAbsent {e : Expr} {st : St}
    (h : ∀ c n, Absent (.recompute c n e) st) : NoRec e st := fun i c n => h c n i

theorem NoRec.framePres {e : Expr} {st st' : St} (h : NoRec e st) (hF : ReadFrame st st') :
    NoRec e st' :=
  NoRec.ofAbsent (fun c n => (h.toAbsent c n).readFramePres hF)

theorem NoRec.addListenerPres {e : Expr} {st : St} (h : NoRec e st) (sigId : Nat)
    (l : Listener) (ce : Option Nat) (hl : ∀ c n, l ≠ .recompute c n e) :
    NoRec e (addListener st sigId l ce) := by
  intro i c n
  by_cases hs : sigId < st.sigs.length
  · by_cases hi : sigId = i
    · subst hi
      rw [addListener_sigListeners_self _ _ _ _ hs]
      intro hm
      rcases List.mem_append.mp hm with hm | hm
      · exact h _ c n hm
      · exact hl c n (List.mem_singleton.mp hm).symm
    · rw [addListener_sigListeners_ne _ _ _ _ _ hi]
      exact h _ c n
  · rw [addListener_sigListeners_of_ge _ _ _ _ _ (Nat.le_of_not_lt hs)]
    exact h _ c n

/-- When no recompute listener for the expression `e` is registered
anywhere, no interpreter run ever evaluates `e` again: evaluations during
writes come only from recompute listeners, and the interpreter never
installs listeners. -/
theorem exec_no_reeval (e : Expr) : ∀ (fuel : Nat) (st : St) (task : Task),
    NoRec e st →
    (∀ ls i, task = .emit ls i → ∀ c n, Listener.recompute c n e ∉ ls) →
    NoRec e (exec fuel st task) ∧
    (exec fuel st task).evalLog.count e = st.evalLog.count e := by
  intro fuel
  induction fuel with
  | zero => intro st task hN _; exact ⟨hN, rfl⟩
  | succ f ih =>
    intro st task hN hT
    cases task with
    | write chain k v =>
      cases chain with
      | nil => exact ⟨hN, rfl⟩
      | cons sid rest =>
        cases hh : hasKeyChain st rest k with
        | true =>
          rw [show exec (f + 1) st (.write (sid :: rest) k v) = exec f st (.write rest k v)
            from by simp [exec, hh]]
          exact ih st _ hN (fun ls i h => nomatch h)
        | false =>
          rw [exec_write_local f st sid rest k v hh]
          have hN1 : NoRec e (((ensureSig st sid k).2.setOldv sid k
              ((ensureSig st sid k).2.sigValue (ensureSig st sid k).1)).setSigValue
              (ensureSig st sid k).1 v) :=
            NoRec.ofAbsent (fun c n =>
              (((hN.toAbsent c n).ensureSigPres sid k).setOldvPres sid k _).setSigValuePres _ v)
          have hEv1 : (((ensureSig st sid k).2.setOldv sid k
              ((ensureSig st sid k).2.sigValue (ensureSig st sid k).1)).setSigValue
              (ensureSig st sid k).1 v).evalLog = st.evalLog := by
            rw [evalLog_setSigValue, evalLog_setOldv]
            cases hl : (st.scopeVars sid).lookup k with
            | some id => rw [ensureSig_some st sid k id hl]
            | none => rw [ensureSig_none st sid k hl]; rfl
          obtain ⟨hN2, hC2⟩ := ih
            (((ensureSig st sid k).2.setOldv sid k
              ((ensureSig st sid k).2.sigValue (ensureSig st sid k).1)).setSigValue
              (ensureSig st sid k).1 v)
            (.emit
              ((((ensureSig st sid k).2.setOldv sid k
                ((ensureSig st sid k).2.sigValue (ensureSig st sid k).1)).setSigValue
                (ensureSig st sid k).1 v).sigListeners (ensureSig st sid k).1)
              (ensureSig st sid k).1)
            hN1
            (fun ls i h => by cases h; exact fun c n => hN1 _ c n)
          refine ⟨hN2, ?_⟩
          rw [hC2, hEv1]
    | emit ls sigId =>
      cases ls with
      | nil => exact ⟨hN, rfl⟩
      | cons l' rest =>
        have hni := hT (l' :: rest) sigId rfl
        have hnr : ∀ ls2 i2, Task.emit rest sigId = Task.emit ls2 i2 →
            ∀ c n, Listener.recompute c n e ∉ ls2 := by
          intro ls2 i2 h
          cases h
          exact fun c n hm => hni c n (List.mem_cons_of_mem _ hm)
        cases l' with
        | ext n =>
          simp only [exec]
          exact ih { st with invLog := st.invLog ++ [(Listener.ext n, st.sigValue sigId)] }
            (.emit rest sigId) hN hnr
        | domSetter a b =>
          simp only [exec]
          exact ih
            { st with invLog := st.invLog ++ [(Listener.domSetter a b, st.sigValue sigId)],
                      domWrites := st.domWrites ++ [(a, b, st.sigValue sigId)] }
            (.emit rest sigId) hN hnr
        | persistUrl n =>
          simp only [exec]
          exact ih
            { st with invLog := st.invLog ++ [(Listener.persistUrl n, st.sigValue sigId)],
                      urlParams := storeSet st.urlParams n (st.sigValue sigId).toStr }
            (.emit rest sigId) hN hnr
        | persistLocal n =>
          simp only [exec]
          exact ih
            { st with invLog := st.invLog ++ [(Listener.persistLocal n, st.sigValue sigId)],
                      localStorage := storeSet st.localStorage n (st.sigValue sigId).toStr }
            (.emit rest sigId) hN hnr
        | persistSession n =>
          simp only [exec]
          exact ih
            { st with invLog := st.invLog ++ [(Listener.persistSession n, st.sigValue sigId)],
                      sessionStorage := storeSet st.sessionStorage n (st.sigValue sigId).toStr }
            (.emit rest sigId) hN hnr
        | recompute c n ex =>
          have hexne : ex ≠ e := by
            intro he
            subst he
            exact hni c n (List.mem_cons_self _ _)
          rw [exec_emit_cons_recompute f st c n ex rest sigId]
          have hNa : NoRec e ({ st with
              invLog := st.invLog ++ [(Listener.recompute c n ex, st.sigValue sigId)] } : St) :=
            hN
          have hNq : NoRec e (evalExpr { st with
              invLog := st.invLog ++ [(Listener.recompute c n ex, st.sigValue sigId)] } c
              ex).2 :=
            NoRec.framePres hNa (evalExpr_frame { st with
              invLog := st.invLog ++ [(Listener.recompute c n ex, st.sigValue sigId)] } c ex)
          have hCq : (evalExpr { st with
              invLog := st.invLog ++ [(Listener.recompute c n ex, st.sigValue sigId)] } c
              ex).2.evalLog.count e = st.evalLog.count e := by
            rw [evalExpr_evalLog]
            rw [show ({ st with invLog := st.invLog ++
              [(Listener.recompute c n ex, st.sigValue sigId)] } : St).evalLog
              = st.evalLog from rfl]
            rw [List.count_append]
            have : List.count e [ex] = 0 :=
              List.count_eq_zero.mpr (fun hm => hexne (List.mem_singleton.mp hm).symm)
            omega
          obtain ⟨hNw, hCw⟩ := ih
            (evalExpr { st with
              invLog := st.invLog ++ [(Listener.recompute c n ex, st.sigValue sigId)] } c ex).2
            (.write c n (evalExpr { st with
              invLog := st.invLog ++ [(Listener.recompute c n ex, st.sigValue sigId)] } c ex).1)
            hNq (fun ls2 i2 h => nomatch h)
          obtain ⟨hN2, hC2⟩ := ih
            (exec f
              (evalExpr { st with
                invLog := st.invLog ++ [(Listener.recompute c n ex, st.sigValue sigId)] } c ex).2
              (.write c n (evalExpr { st with
                invLog := st.invLog ++
                  [(Listener.recompute c n ex, st.sigValue sigId)] } c ex).1))
            (.emit rest sigId) hNw hnr
          refine ⟨hN2, ?_⟩
          rw [hC2, hCw, hCq]

theorem lookup_mem {β : Type} (l : List (String × β)) (k : String) (b : β)
    (h : l.lookup k = some b) : (k, b) ∈ l := by
  induction l with
  | nil => exact absurd h (by simp)
  | cons p rest ih =>
    rcases p with ⟨k', v'⟩
    rw [List.lookup_cons] at h
    cases hkk : (k == k') with
    | true =>
      rw [hkk] at h
      have h1 : k = k' := beq_iff_eq.mp hkk
      have h2 : v' = b := Option.some.inj h
      rw [h1, h2]
      exact List.mem_cons_self _ _
    | false =>
      rw [hkk] at h
      exact List.mem_cons_of_mem _ (ih h)

theorem count_singleton_self (e : Expr) : List.count e [e] = 1 := by
  simp

theorem writeVar_def (fuel : Nat) (st : St) (chain : List Nat) (k : String) (v : Val) :
    exec fuel st (.write chain k v) = writeVar fuel st chain k v := rfl

theorem lookupSig_nilParent (st : St) (scopeId : Nat) (k : String) :
    lookupSig st [] scopeId k = (st.scopeVars scopeId).lookup k := rfl

theorem setupLetParsed_plain_eq (fuel : Nat) (st : St) (elemId : Nat) (varName : String)
    (deps : List String) (e : Expr) (ps : List (String × Nat)) (scopeId : Nat)
    (chain : List Nat) :
    setupLetParsed fuel st elemId false false false varName deps e ps scopeId chain =
      letRegister
        (writeVar fuel (evalExpr st chain e).2 chain (kebabToCamelCase varName)
          (evalExpr st chain e).1)
        ps scopeId elemId chain (kebabToCamelCase varName) e deps false false := by
  simp [setupLetParsed]

theorem letRegister_nodeps_eq (st2 : St) (ps : List (String × Nat)) (scopeId elemId : Nat)
    (chain : List Nat) (cn : String) (e : Expr) (sigId : Nat)
    (hlk : lookupSig st2 ps scopeId cn = some sigId) :
    letRegister st2 ps scopeId elemId chain cn e [] false false =
      some (addListener st2 sigId (.persistSession cn) (some elemId)) := by
  simp [letRegister, addDepListeners, hlk]

theorem letRegister_eq (st2 : St) (ps : List (String × Nat)) (scopeId elemId : Nat)
    (chain : List Nat) (cn : String) (e : Expr) (deps : List String) (stD : St) (sigId : Nat)
    (hD : addDepListeners st2 ps scopeId elemId chain cn e deps = some stD)
    (hlk : lookupSig stD ps scopeId cn = some sigId) :
    letRegister st2 ps scopeId elemId chain cn e deps false false =
      some (addListener stD sigId (.persistSession cn) (some elemId)) := by
  simp [letRegister, hD, hlk]

theorem NoRec.writeFreshPres {e : Expr} {st : St} (hN : NoRec e st) (fuel : Nat) (sid : Nat)
    (k : String) (v : Val) (hl : (st.scopeVars sid).lookup k = none)
    (hs : sid < st.scopes.length) : NoRec e (writeVar (fuel + 1) st [sid] k v) := by
  obtain ⟨_, _, hlen, _, hnil, hlow, _, _, _, _, _, _, _⟩ := writeVar_fresh_facts fuel st sid k v hl hs
  intro i c n
  rcases Nat.lt_trichotomy i st.sigs.length with hi | hi | hi
  · rw [hlow i hi]
    exact hN i c n
  · subst hi
    rw [hnil]
    exact List.not_mem_nil _
  · rw [sigListeners_of_ge _ i (by omega)]
    exact List.not_mem_nil _

/-- The state produced by setting up `#let:v2|v1` (plain variant, one
dependency) over a chain of one scope: the default is evaluated once, the
variable's fresh signal carries the session write-through listener (the
source's always-truthy branch), and the dependency's signal carries
exactly the recompute listener. -/
theorem setupLet_dep_facts (g : Nat) (st : St) (elemId c0 depSig : Nat) (varName d : String)
    (e : Expr)
    (hScope : c0 < st.scopes.length)
    (hFresh : (st.scopeVars c0).lookup (kebabToCamelCase varName) = none)
    (hDep : (st.scopeVars c0).lookup d = some depSig)
    (hDepSig : depSig < st.sigs.length)
    (hDepL : st.sigListeners depSig = [])
    (hne : kebabToCamelCase varName ≠ d)
    (hNoRead : ∀ x, e = .read x → kebabToCamelCase varName ≠ x) :
    setupLetParsed (g + 1) st elemId false false false varName [d] e [] c0 [c0] =
      some (addListener
        (addListener
          (writeVar (g + 1) (evalExpr st [c0] e).2 [c0] (kebabToCamelCase varName)
            (evalExpr st [c0] e).1)
          depSig (.recompute [c0] (kebabToCamelCase varName) e) (some elemId))
        (evalExpr st [c0] e).2.sigs.length
        (.persistSession (kebabToCamelCase varName)) (some elemId)) ∧
    (∀ st', setupLetParsed (g + 1) st elemId false false false varName [d] e [] c0 [c0]
        = some st' →
      st'.sigListeners depSig = [.recompute [c0] (kebabToCamelCase varName) e] ∧
      st'.sigListeners (evalExpr st [c0] e).2.sigs.length
        = [.persistSession (kebabToCamelCase varName)] ∧
      st'.evalLog = st.evalLog ++ [e] ∧
      (st'.scopeVars c0).lookup (kebabToCamelCase varName)
        = some (evalExpr st [c0] e).2.sigs.length ∧
      (st'.scopeVars c0).lookup d = some depSig ∧
      st'.sigs.length = (evalExpr st [c0] e).2.sigs.length + 1 ∧
      depSig < (evalExpr st [c0] e).2.sigs.length) := by
  have hpF := evalExpr_frame st [c0] e
  have hpLk : ((evalExpr st [c0] e).2.scopeVars c0).lookup (kebabToCamelCase varName)
      = none := by
    rw [evalExpr_lookup_ne st [c0] e c0 _ hNoRead]
    exact hFresh
  have hpScope : c0 < (evalExpr st [c0] e).2.scopes.length := by
    rw [hpF.scopesLen]
    exact hScope
  have hdsig1 : depSig < (evalExpr st [c0] e).2.sigs.length :=
    Nat.lt_of_lt_of_le hDepSig hpF.sigsLen
  obtain ⟨hv1, _hv2, hv3, _hv4, hv5, hv6, _hv7, hv8, _hv9, _, _, _, _⟩ :=
    writeVar_fresh_facts g (evalExpr st [c0] e).2 c0 (kebabToCamelCase varName)
      (evalExpr st [c0] e).1 hpLk hpScope
  have hdLk2 : ((writeVar (g + 1) (evalExpr st [c0] e).2 [c0] (kebabToCamelCase varName)
      (evalExpr st [c0] e).1).scopeVars c0).lookup d = some depSig := by
    rw [hv1, lookup_cons_ne _ _ _ _ (Ne.symm hne)]
    exact evalExpr_lookup_some_pres st [c0] e c0 d depSig hDep
  have hDeq : addDepListeners
      (writeVar (g + 1) (evalExpr st [c0] e).2 [c0] (kebabToCamelCase varName)
        (evalExpr st [c0] e).1) [] c0 elemId [c0] (kebabToCamelCase varName) e [d] =
      some (addListener
        (writeVar (g + 1) (evalExpr st [c0] e).2 [c0] (kebabToCamelCase varName)
          (evalExpr st [c0] e).1)
        depSig (.recompute [c0] (kebabToCamelCase varName) e) (some elemId)) := by
    simp [addDepListeners, lookupSig_nilParent, hdLk2]
  have hlkD : lookupSig
      (addListener
        (writeVar (g + 1) (evalExpr st [c0] e).2 [c0] (kebabToCamelCase varName)
          (evalExpr st [c0] e).1)
        depSig (.recompute [c0] (kebabToCamelCase varName) e) (some elemId))
      [] c0 (kebabToCamelCase varName) = some (evalExpr st [c0] e).2.sigs.length := by
    rw [lookupSig_nilParent, addListener_scopeVars, hv1, lookup_cons_self]
  have heq : setupLetParsed (g + 1) st elemId false false false varName [d] e [] c0 [c0] =
      some (addListener
        (addListener
          (writeVar (g + 1) (evalExpr st [c0] e).2 [c0] (kebabToCamelCase varName)
            (evalExpr st [c0] e).1)
          depSig (.recompute [c0] (kebabToCamelCase varName) e) (some elemId))
        (evalExpr st [c0] e).2.sigs.length
        (.persistSession (kebabToCamelCase varName)) (some elemId)) := by
    rw [setupLetParsed_plain_eq]
    rw [letRegister_eq _ _ _ _ _ _ _ _ _ _ hDeq hlkD]
  refine ⟨heq, fun st' hst' => ?_⟩
  rw [heq] at hst'
  have hst'' := (Option.some.inj hst').symm
  subst hst''
  have hdltW : (writeVar (g + 1) (evalExpr st [c0] e).2 [c0] (kebabToCamelCase varName)
      (evalExpr st [c0] e).1).sigListeners depSig = [] := by
    rw [hv6 depSig hdsig1, evalExpr_sigListeners_low st [c0] e depSig hDepSig, hDepL]
  have hneIdx : (evalExpr st [c0] e).2.sigs.length ≠ depSig := Nat.ne_of_gt hdsig1
  refine ⟨?_, ?_, ?_, ?_, ?_, ?_, hdsig1⟩
  · rw [addListener_sigListeners_ne _ _ _ _ _ hneIdx,
      addListener_sigListeners_self _ _ _ _ (by omega), hdltW]
    rfl
  · rw [addListener_sigListeners_self _ _ _ _ (by rw [addListener_sigs_length, hv3]; omega),
      addListener_sigListeners_ne _ _ _ _ _ (Ne.symm hneIdx), hv5]
    rfl
  · rw [addListener_evalLog, addListener_evalLog, hv8, evalExpr_evalLog]
  · rw [addListener_scopeVars, addListener_scopeVars, hv1, lookup_cons_self]
  · rw [addListener_scopeVars, addListener_scopeVars, hv1,
      lookup_cons_ne _ _ _ _ (Ne.symm hne)]
    exact evalExpr_lookup_some_pres st [c0] e c0 d depSig hDep
  · rw [addListener_sigs_length, addListener_sigs_length, hv3]

/-- Firing a dependency signal whose only listener is the recompute
listener of the declaration: the expression is re-evaluated (exactly one
new evaluation-log entry), the declared variable is rewritten with the
evaluation's result (running its own write-through listener), and the
recompute listener stays installed on the dependency's signal. -/
theorem depWrite_facts (g2 : Nat) (stq : St) (c0 depSig N : Nat) (cn d : String) (e : Expr)
    (w : Val)
    (hLd : stq.sigListeners depSig = [.recompute [c0] cn e])
    (hLn : stq.sigListeners N = [.persistSession cn])
    (hLkCn : (stq.scopeVars c0).lookup cn = some N)
    (hLkD : (stq.scopeVars c0).lookup d = some depSig)
    (hLen : stq.sigs.length = N + 1)
    (hdn : depSig < N) :
    (writeVar (g2 + 4) stq [c0] d w).evalLog = stq.evalLog ++ [e] ∧
    (writeVar (g2 + 4) stq [c0] d w).sigListeners depSig = [.recompute [c0] cn e] ∧
    (readVar (writeVar (g2 + 4) stq [c0] d w) [c0] cn).1 =
      (evalExpr
        { (stq.setOldv c0 d (stq.sigValue depSig)).setSigValue depSig w with
          invLog := ((stq.setOldv c0 d (stq.sigValue depSig)).setSigValue depSig w).invLog ++
            [(Listener.recompute [c0] cn e,
              ((stq.setOldv c0 d (stq.sigValue depSig)).setSigValue depSig w).sigValue
                depSig)] }
        [c0] e).1 := by
  have e1 : writeVar (g2 + 4) stq [c0] d w
      = exec (g2 + 3) ((stq.setOldv c0 d (stq.sigValue depSig)).setSigValue depSig w)
        (.emit (stq.sigListeners depSig) depSig) :=
    writeVar_local_existing (g2 + 3) stq c0 [] d w depSig rfl hLkD
  rw [hLd] at e1
  obtain ⟨A, hA⟩ : ∃ A, (stq.setOldv c0 d (stq.sigValue depSig)).setSigValue depSig w = A :=
    ⟨_, rfl⟩
  have hAvars : ∀ j, A.scopeVars j = stq.scopeVars j := by
    intro j
    rw [← hA, scopeVars_setSigValue, scopeVars_setOldv]
  have hAls : ∀ i, A.sigListeners i = stq.sigListeners i := by
    intro i
    rw [← hA, sigListeners_setSigValue, sigListeners_setOldv]
  have hAlen : A.sigs.length = stq.sigs.length := by
    rw [← hA, sigs_length_setSigValue, sigs_setOldv]
  have hAev : A.evalLog = stq.evalLog := by
    rw [← hA, evalLog_setSigValue, evalLog_setOldv]
  rw [hA] at e1 ⊢
  have e2 := exec_emit_cons_recompute (g2 + 2) A [c0] cn e [] depSig
  rw [exec_emit_nil] at e2
  have e1b : writeVar (g2 + 4) stq [c0] d w
      = exec ((g2 + 2) + 1) A (.emit [Listener.recompute [c0] cn e] depSig) := e1
  rw [e2, writeVar_def] at e1b
  obtain ⟨B, hB⟩ : ∃ B,
      ({ A with invLog := A.invLog ++
        [(Listener.recompute [c0] cn e, A.sigValue depSig)] } : St) = B := ⟨_, rfl⟩
  have hBvars : ∀ j, B.scopeVars j = stq.scopeVars j := by
    intro j
    rw [← hB]
    exact hAvars j
  have hBls : ∀ i, B.sigListeners i = stq.sigListeners i := by
    intro i
    rw [← hB]
    exact hAls i
  have hBlen : B.sigs.length = stq.sigs.length := by
    rw [← hB]
    exact hAlen
  have hBev : B.evalLog = stq.evalLog := by
    rw [← hB]
    exact hAev
  rw [hB] at e1b ⊢
  have hqLk : ((evalExpr B [c0] e).2.scopeVars c0).lookup cn = some N :=
    evalExpr_lookup_some_pres B [c0] e c0 cn N (by rw [hBvars]; exact hLkCn)
  have hqLs : (evalExpr B [c0] e).2.sigListeners N = [Listener.persistSession cn] := by
    rw [evalExpr_sigListeners_low B [c0] e N (by omega), hBls]
    exact hLn
  have e4 : writeVar ((g2 + 1) + 1) (evalExpr B [c0] e).2 [c0] cn (evalExpr B [c0] e).1
      = exec (g2 + 1)
        (((evalExpr B [c0] e).2.setOldv c0 cn
          ((evalExpr B [c0] e).2.sigValue N)).setSigValue N (evalExpr B [c0] e).1)
        (.emit ((evalExpr B [c0] e).2.sigListeners N) N) :=
    writeVar_local_existing (g2 + 1) (evalExpr B [c0] e).2 c0 [] cn (evalExpr B [c0] e).1 N
      rfl hqLk
  rw [hqLs] at e4
  obtain ⟨C, hC⟩ : ∃ C,
      (((evalExpr B [c0] e).2.setOldv c0 cn
        ((evalExpr B [c0] e).2.sigValue N)).setSigValue N (evalExpr B [c0] e).1) = C :=
    ⟨_, rfl⟩
  have hCvars : ∀ j, C.scopeVars j = (evalExpr B [c0] e).2.scopeVars j := by
    intro j
    rw [← hC, scopeVars_setSigValue, scopeVars_setOldv]
  have hCls : ∀ i, C.sigListeners i = (evalExpr B [c0] e).2.sigListeners i := by
    intro i
    rw [← hC, sigListeners_setSigValue, sigListeners_setOldv]
  have hClen : C.sigs.length = (evalExpr B [c0] e).2.sigs.length := by
    rw [← hC, sigs_length_setSigValue, sigs_setOldv]
  have hCev : C.evalLog = (evalExpr B [c0] e).2.evalLog := by
    rw [← hC, evalLog_setSigValue, evalLog_setOldv]
  have hCvalN : C.sigValue N = (evalExpr B [c0] e).1 := by
    rw [← hC]
    rw [sigValue_setSigValue_self]
    rw [sigs_setOldv]
    have := (evalExpr_frame B [c0] e).sigsLen
    omega
  rw [hC] at e4
  have e5 := exec_emit_cons_persistSession g2 C cn [] N
  rw [exec_emit_nil] at e5
  have e4b : writeVar (g2 + 2) (evalExpr B [c0] e).2 [c0] cn (evalExpr B [c0] e).1
      = exec (g2 + 1) C (.emit [Listener.persistSession cn] N) := e4
  rw [e5] at e4b
  rw [e4b] at e1b
  obtain ⟨D, hD⟩ : ∃ D,
      ({ C with
        invLog := C.invLog ++ [(Listener.persistSession cn, C.sigValue N)],
        sessionStorage := storeSet C.sessionStorage cn (C.sigValue N).toStr } : St) = D :=
    ⟨_, rfl⟩
  have hDvars : ∀ j, D.scopeVars j = C.scopeVars j := by
    intro j
    rw [← hD]
    rfl
  have hDls : ∀ i, D.sigListeners i = C.sigListeners i := by
    intro i
    rw [← hD]
    rfl
  have hDev : D.evalLog = C.evalLog := by
    rw [← hD]
  have hDval : ∀ i, D.sigValue i = C.sigValue i := by
    intro i
    rw [← hD]
    rfl
  rw [hD] at e1b
  have hEvq : (evalExpr B [c0] e).2.evalLog = stq.evalLog ++ [e] := by
    rw [evalExpr_evalLog, hBev]
  refine ⟨?_, ?_, ?_⟩
  · rw [e1b, hDev, hCev, hEvq]
  · rw [e1b, hDls, hCls,
      evalExpr_sigListeners_low B [c0] e depSig (by omega), hBls]
    exact hLd
  · rw [e1b]
    have hlkD2 : (D.scopeVars c0).lookup cn = some N := by
      rw [hDvars, hCvars]
      exact hqLk
    rw [readVar_some_eq D c0 [] cn N rfl hlkD2]
    rw [hDval, hCvalN]

theorem evalExpr_read_val (S : St) (c0 : Nat) (d : String) (i : Nat)
    (hlk : (S.scopeVars c0).lookup d = some i) :
    (evalExpr S [c0] (.read d)).1 = S.sigValue i := by
  show (readVar { S with evalLog := S.evalLog ++ [Expr.read d] } [c0] d).1 = _
  have hlk2 : (({ S with evalLog := S.evalLog ++ [Expr.read d] } : St).scopeVars c0).lookup d
      = some i := hlk
  rw [readVar_some_eq _ c0 [] d i rfl hlk2]
  rfl

/-- C7: (part a) a `#let` declaration without explicit dependencies
evaluates its expression exactly once, at declaration time — no recompute
listener is installed, so no later write through any chain evaluates it
again; (part b) `#let:v|dep` installs a recompute listener on the
dependency's signal: a subsequent write to the dependency re-evaluates the
expression exactly once and rewrites the declared variable with the
result (for the expression `read dep`, the new value of the variable is
the dependency's new value), and the listener stays installed, so it
fires again on every later change. -/
theorem C7_let_dependency_reactivity :
    (∀ (f : Nat) (st : St) (elemId c0 : Nat) (varName : String) (e : Expr),
      c0 < st.scopes.length →
      (st.scopeVars c0).lookup (kebabToCamelCase varName) = none →
      (∀ i, i < st.sigs.length → ∀ c n, Listener.recompute c n e ∉ st.sigListeners i) →
      (∀ x, e = .read x → kebabToCamelCase varName ≠ x) →
      ∃ st', setupLetParsed (f + 1) st elemId false false false varName [] e [] c0 [c0]
          = some st' ∧
        st'.evalLog.count e = st.evalLog.count e + 1 ∧
        (∀ fuel chain k v,
          (writeVar fuel st' chain k v).evalLog.count e = st'.evalLog.count e)) ∧
    (∀ (g g2 : Nat) (st : St) (elemId c0 depSig : Nat) (varName d : String) (e : Expr)
        (w : Val),
      c0 < st.scopes.length →
      (st.scopeVars c0).lookup (kebabToCamelCase varName) = none →
      (st.scopeVars c0).lookup d = some depSig →
      depSig < st.sigs.length →
      st.sigListeners depSig = [] →
      kebabToCamelCase varName ≠ d →
      (∀ x, e = .read x → kebabToCamelCase varName ≠ x) →
      ∃ st', setupLetParsed (g + 1) st elemId false false false varName [d] e [] c0 [c0]
          = some st' ∧
        st'.evalLog.count e = st.evalLog.count e + 1 ∧
        st'.sigListeners depSig = [.recompute [c0] (kebabToCamelCase varName) e] ∧
        (writeVar (g2 + 4) st' [c0] d w).evalLog.count e = st'.evalLog.count e + 1 ∧
        (writeVar (g2 + 4) st' [c0] d w).sigListeners depSig
          = [.recompute [c0] (kebabToCamelCase varName) e] ∧
        (e = .read d →
          (readVar (writeVar (g2 + 4) st' [c0] d w) [c0] (kebabToCamelCase varName)).1
            = w)) := by
  constructor
  · intro f st elemId c0 varName e hScope hFresh hNRb hNoRead
    have hNR : NoRec e st := by
      intro i c n
      by_cases hi : i < st.sigs.length
      · exact hNRb i hi c n
      · rw [sigListeners_of_ge _ _ (Nat.le_of_not_lt hi)]
        exact List.not_mem_nil _
    have hpF := evalExpr_frame st [c0] e
    have hpLk : ((evalExpr st [c0] e).2.scopeVars c0).lookup (kebabToCamelCase varName)
        = none := by
      rw [evalExpr_lookup_ne st [c0] e c0 _ hNoRead]
      exact hFresh
    have hpScope : c0 < (evalExpr st [c0] e).2.scopes.length := by
      rw [hpF.scopesLen]
      exact hScope
    obtain ⟨hv1, _, _, _, _, _, _, hv8, _, _, _, _, _⟩ :=
      writeVar_fresh_facts f (evalExpr st [c0] e).2 c0 (kebabToCamelCase varName)
        (evalExpr st [c0] e).1 hpLk hpScope
    have hlk2 : lookupSig
        (writeVar (f + 1) (evalExpr st [c0] e).2 [c0] (kebabToCamelCase varName)
          (evalExpr st [c0] e).1) [] c0 (kebabToCamelCase varName)
        = some (evalExpr st [c0] e).2.sigs.length := by
      rw [lookupSig_nilParent, hv1, lookup_cons_self]
    refine ⟨addListener
        (writeVar (f + 1) (evalExpr st [c0] e).2 [c0] (kebabToCamelCase varName)
          (evalExpr st [c0] e).1)
        (evalExpr st [c0] e).2.sigs.length
        (.persistSession (kebabToCamelCase varName)) (some elemId), ?_, ?_, ?_⟩
    · rw [setupLetParsed_plain_eq]
      exact letRegister_eq _ _ _ _ _ _ _ _ _ _ rfl hlk2
    · rw [addListener_evalLog, hv8, evalExpr_evalLog, List.count_append,
        count_singleton_self]
    · intro fuel chain k v
      have hN2 : NoRec e (addListener
          (writeVar (f + 1) (evalExpr st [c0] e).2 [c0] (kebabToCamelCase varName)
            (evalExpr st [c0] e).1)
          (evalExpr st [c0] e).2.sigs.length
          (.persistSession (kebabToCamelCase varName)) (some elemId)) :=
        ((hNR.framePres hpF).writeFreshPres f c0 _ _ hpLk hpScope).addListenerPres _ _ _
          (fun c n h => by cases h)
      exact (exec_no_reeval e fuel _ (.write chain k v) hN2 (fun ls i h => nomatch h)).2
  · intro g g2 st elemId c0 depSig varName d e w hScope hFresh hDep hDepSig hDepL hne hNoRead
    obtain ⟨heq, hfacts⟩ := setupLet_dep_facts g st elemId c0 depSig varName d e hScope
      hFresh hDep hDepSig hDepL hne hNoRead
    obtain ⟨hLd, hLn, hEv, hLkCn, hLkD, hLen, hdn⟩ := hfacts _ heq
    refine ⟨_, heq, ?_, hLd, ?_, ?_, ?_⟩
    · rw [hEv, List.count_append, count_singleton_self]
    · obtain ⟨dEv, _, _⟩ := depWrite_facts g2 _ c0 depSig _ (kebabToCamelCase varName) d e w
        hLd hLn hLkCn hLkD hLen hdn
      rw [dEv, List.count_append, count_singleton_self]
    · obtain ⟨_, dLs, _⟩ := depWrite_facts g2 _ c0 depSig _ (kebabToCamelCase varName) d e w
        hLd hLn hLkCn hLkD hLen hdn
      exact dLs
    · intro he
      subst he
      obtain ⟨_, _, dRead⟩ := depWrite_facts g2 _ c0 depSig _ (kebabToCamelCase varName) d
        (.read d) w hLd hLn hLkCn hLkD hLen hdn
      rw [dRead]
      rw [evalExpr_read_val _ c0 d depSig ?_]
      · show (_ : St).sigValue depSig = w
        rw [show ∀ X : St, ∀ lg, ({ X with invLog := lg } : St).sigValue depSig
            = X.sigValue depSig from fun X lg => rfl]
        rw [sigValue_setSigValue_self]
        rw [sigs_setOldv]
        omega
      · rw [show ∀ X : St, ∀ lg, ({ X with invLog := lg } : St).scopeVars c0
            = X.scopeVars c0 from fun X lg => rfl]
        rw [scopeVars_setSigValue, scopeVars_setOldv]
        exact hLkD

/-- Witness for C7 at concrete inputs: a dependency-free declaration on the
bare root state, and a declaration depending on `v1` followed by a write. -/
theorem C7_let_dependency_reactivity_witness :
    (∃ st', setupLetParsed (1 + 1) exRoot 0 false false false "v" [] (.const (.num 7)) [] 0 [0]
        = some st' ∧
      st'.evalLog.count (.const (.num 7)) = exRoot.evalLog.count (.const (.num 7)) + 1 ∧
      ∀ fuel chain k v, (writeVar fuel st' chain k v).evalLog.count (.const (.num 7))
        = st'.evalLog.count (.const (.num 7))) ∧
    (∃ st', setupLetParsed (1 + 1) exDep 0 false false false "v2" ["v1"] (.read "v1") [] 0 [0]
        = some st' ∧
      st'.evalLog.count (.read "v1") = exDep.evalLog.count (.read "v1") + 1 ∧
      st'.sigListeners 0 = [.recompute [0] (kebabToCamelCase "v2") (.read "v1")] ∧
      (writeVar (1 + 4) st' [0] "v1" (.str "W")).evalLog.count (.read "v1")
        = st'.evalLog.count (.read "v1") + 1 ∧
      (writeVar (1 + 4) st' [0] "v1" (.str "W")).sigListeners 0
        = [.recompute [0] (kebabToCamelCase "v2") (.read "v1")] ∧
      ((.read "v1" : Expr) = .read "v1" →
        (readVar (writeVar (1 + 4) st' [0] "v1" (.str "W")) [0] (kebabToCamelCase "v2")).1
          = .str "W")) :=
  ⟨C7_let_dependency_reactivity.1 1 exRoot 0 0 "v" (.const (.num 7))
      (by decide) (by decide) (fun i hi => absurd hi (Nat.not_lt_zero i))
      (fun x hx => nomatch hx),
   C7_let_dependency_reactivity.2 1 1 exDep 0 0 0 "v2" "v1" (.read "v1") (.str "W")
      (by decide) (by decide) (by decide) (by decide) (by decide) (by decide)
      (fun x hx => by cases hx; decide)⟩

theorem letRegister_nodeps_flags_eq (st2 : St) (ps : List (String × Nat))
    (scopeId elemId : Nat) (chain : List Nat) (cn : String) (e : Expr) (sigId : Nat)
    (u l : Bool) (hlk : lookupSig st2 ps scopeId cn = some sigId) :
    letRegister st2 ps scopeId elemId chain cn e [] u l =
      some (addListener st2 sigId
        (if u then Listener.persistUrl cn else if l then Listener.persistLocal cn
          else Listener.persistSession cn) (some elemId)) := by
  cases u <;> cases l <;> simp [letRegister, addDepListeners, hlk]

theorem setupLetParsed_stored_eq (fuel : Nat) (st : St) (elemId : Nat) (u l s : Bool)
    (varName : String) (deps : List String) (e : Expr) (ps : List (String × Nat))
    (scopeId : Nat) (chain : List Nat) (sv : String)
    (hpv : (u, l, s) = (true, false, false) ∨ (u, l, s) = (false, true, false) ∨
      (u, l, s) = (false, false, true))
    (hst : (storeOf u l st).lookup (kebabToCamelCase varName) = some sv) :
    setupLetParsed fuel st elemId u l s varName deps e ps scopeId chain =
      letRegister (writeVar fuel st chain (kebabToCamelCase varName) (Val.str sv)) ps
        scopeId elemId chain (kebabToCamelCase varName) e deps u l := by
  rcases hpv with h | h | h <;>
    (simp only [Prod.mk.injEq] at h; obtain ⟨rfl, rfl, rfl⟩ := h) <;>
    simp only [storeOf, if_true, if_false, Bool.false_eq_true] at hst <;>
    simp [setupLetParsed, hst]

theorem setupLetParsed_absent_eq (fuel : Nat) (st : St) (elemId : Nat) (u l s : Bool)
    (varName : String) (deps : List String) (e : Expr) (ps : List (String × Nat))
    (scopeId : Nat) (chain : List Nat)
    (hpv : (u, l, s) = (true, false, false) ∨ (u, l, s) = (false, true, false) ∨
      (u, l, s) = (false, false, true))
    (hst : (storeOf u l st).lookup (kebabToCamelCase varName) = none) :
    setupLetParsed fuel st elemId u l s varName deps e ps scopeId chain =
      letRegister
        (writeVar fuel (evalExpr st chain e).2 chain (kebabToCamelCase varName)
          (evalExpr st chain e).1) ps scopeId elemId chain (kebabToCamelCase varName) e deps
        u l := by
  rcases hpv with h | h | h <;>
    (simp only [Prod.mk.injEq] at h; obtain ⟨rfl, rfl, rfl⟩ := h) <;>
    simp only [storeOf, if_true, if_false, Bool.false_eq_true] at hst <;>
    simp [setupLetParsed, hst]

/-- A write to a variable whose signal carries exactly the write-through
listener of the persisted variant updates that variant's store with the
stringified new value. -/
theorem persistListener_write_store (g2 : Nat) (u l : Bool) (stq : St) (c0 L : Nat)
    (cn : String) (w : Val)
    (hLk : (stq.scopeVars c0).lookup cn = some L)
    (hLen : L < stq.sigs.length)
    (hLs : stq.sigListeners L =
      [if u then Listener.persistUrl cn else if l then Listener.persistLocal cn
        else Listener.persistSession cn]) :
    storeOf u l (writeVar (g2 + 2) stq [c0] cn w) = storeSet (storeOf u l stq) cn w.toStr := by
  have hAval : ((stq.setOldv c0 cn (stq.sigValue L)).setSigValue L w).sigValue L = w :=
    sigValue_setSigValue_self _ _ _ (by rw [sigs_setOldv]; exact hLen)
  rw [writeVar_local_existing (g2 + 1) stq c0 [] cn w L rfl hLk, hLs]
  cases u with
  | true =>
    rw [show (if true then Listener.persistUrl cn else if l then Listener.persistLocal cn
        else Listener.persistSession cn) = Listener.persistUrl cn from rfl]
    rw [exec_emit_cons_persistUrl g2 _ cn [] L, exec_emit_nil, hAval]
    rfl
  | false =>
    cases l with
    | true =>
      rw [show (if false then Listener.persistUrl cn
          else if true then Listener.persistLocal cn
          else Listener.persistSession cn) = Listener.persistLocal cn from rfl]
      rw [exec_emit_cons_persistLocal g2 _ cn [] L, exec_emit_nil, hAval]
      rfl
    | false =>
      rw [show (if false then Listener.persistUrl cn
          else if false then Listener.persistLocal cn
          else Listener.persistSession cn) = Listener.persistSession cn from rfl]
      rw [exec_emit_cons_persistSession g2 _ cn [] L, exec_emit_nil, hAval]
      rfl

/-- C5 (amended): for a persisted declaration, a value already in the
variant's store becomes the initial value and the default expression is
not evaluated; with no stored value the default expression's result
becomes the initial value but the store is NOT written at declaration
time — it is first updated by the next write to the variable. -/
theorem C5_persisted_let_initialization (u l s : Bool) (g g2 : Nat) (st : St)
    (elemId c0 : Nat) (varName : String) (e : Expr) (w : Val)
    (hpv : (u, l, s) = (true, false, false) ∨ (u, l, s) = (false, true, false) ∨
      (u, l, s) = (false, false, true))
    (hScope : c0 < st.scopes.length)
    (hFresh : (st.scopeVars c0).lookup (kebabToCamelCase varName) = none)
    (hNoRead : ∀ x, e = .read x → kebabToCamelCase varName ≠ x) :
    (∀ sv, (storeOf u l st).lookup (kebabToCamelCase varName) = some sv →
      ∃ st', setupLetParsed (g + 1) st elemId u l s varName [] e [] c0 [c0] = some st' ∧
        st'.evalLog = st.evalLog ∧
        (readVar st' [c0] (kebabToCamelCase varName)).1 = .str sv) ∧
    ((storeOf u l st).lookup (kebabToCamelCase varName) = none →
      ∃ st', setupLetParsed (g + 1) st elemId u l s varName [] e [] c0 [c0] = some st' ∧
        st'.evalLog = st.evalLog ++ [e] ∧
        (readVar st' [c0] (kebabToCamelCase varName)).1 = (evalExpr st [c0] e).1 ∧
        storeOf u l st' = storeOf u l st ∧
        (storeOf u l (writeVar (g2 + 2) st' [c0] (kebabToCamelCase varName) w)).lookup
          (kebabToCamelCase varName) = some w.toStr) := by
  constructor
  · intro sv hsv
    obtain ⟨hv1, _, _, hv4, _, _, _, hv8, _, _, _, _, _⟩ :=
      writeVar_fresh_facts g st c0 (kebabToCamelCase varName) (Val.str sv) hFresh hScope
    have hlk2 : lookupSig (writeVar (g + 1) st [c0] (kebabToCamelCase varName) (Val.str sv))
        [] c0 (kebabToCamelCase varName) = some st.sigs.length := by
      rw [lookupSig_nilParent, hv1, lookup_cons_self]
    obtain ⟨SQ, hSQ⟩ : ∃ SQ : St, addListener
        (writeVar (g + 1) st [c0] (kebabToCamelCase varName) (Val.str sv)) st.sigs.length
        (if u then Listener.persistUrl (kebabToCamelCase varName)
         else if l then Listener.persistLocal (kebabToCamelCase varName)
         else Listener.persistSession (kebabToCamelCase varName)) (some elemId) = SQ :=
      ⟨_, rfl⟩
    have hSQvars : (SQ.scopeVars c0).lookup (kebabToCamelCase varName)
        = some st.sigs.length := by
      rw [← hSQ, addListener_scopeVars, hv1, lookup_cons_self]
    refine ⟨SQ, ?_, ?_, ?_⟩
    · rw [setupLetParsed_stored_eq (g + 1) st elemId u l s varName [] e [] c0 [c0] sv hpv hsv,
        letRegister_nodeps_flags_eq _ [] c0 elemId [c0] _ e st.sigs.length u l hlk2, hSQ]
    · rw [← hSQ, addListener_evalLog, hv8]
    · rw [readVar_some_eq SQ c0 [] (kebabToCamelCase varName) st.sigs.length rfl hSQvars,
        ← hSQ, addListener_sigValue, hv4]
  · intro hnone
    have hpF := evalExpr_frame st [c0] e
    have hpLk : ((evalExpr st [c0] e).2.scopeVars c0).lookup (kebabToCamelCase varName)
        = none := by
      rw [evalExpr_lookup_ne st [c0] e c0 _ hNoRead]
      exact hFresh
    have hpScope : c0 < (evalExpr st [c0] e).2.scopes.length := by
      rw [hpF.scopesLen]
      exact hScope
    obtain ⟨hv1, _, hv3, hv4, hv5, _, _, hv8, _, hv10, hv11, hv12, _⟩ :=
      writeVar_fresh_facts g (evalExpr st [c0] e).2 c0 (kebabToCamelCase varName)
        (evalExpr st [c0] e).1 hpLk hpScope
    have hlk2 : lookupSig (writeVar (g + 1) (evalExpr st [c0] e).2 [c0]
        (kebabToCamelCase varName) (evalExpr st [c0] e).1) [] c0 (kebabToCamelCase varName)
        = some (evalExpr st [c0] e).2.sigs.length := by
      rw [lookupSig_nilParent, hv1, lookup_cons_self]
    obtain ⟨SP, hSP⟩ : ∃ SP : St, addListener
        (writeVar (g + 1) (evalExpr st [c0] e).2 [c0] (kebabToCamelCase varName)
          (evalExpr st [c0] e).1)
        (evalExpr st [c0] e).2.sigs.length
        (if u then Listener.persistUrl (kebabToCamelCase varName)
         else if l then Listener.persistLocal (kebabToCamelCase varName)
         else Listener.persistSession (kebabToCamelCase varName)) (some elemId) = SP :=
      ⟨_, rfl⟩
    have hSPvars : (SP.scopeVars c0).lookup (kebabToCamelCase varName)
        = some (evalExpr st [c0] e).2.sigs.length := by
      rw [← hSP, addListener_scopeVars, hv1, lookup_cons_self]
    have hSPlen : SP.sigs.length = (evalExpr st [c0] e).2.sigs.length + 1 := by
      rw [← hSP, addListener_sigs_length, hv3]
    have hSPls : SP.sigListeners (evalExpr st [c0] e).2.sigs.length =
        [if u then Listener.persistUrl (kebabToCamelCase varName)
         else if l then Listener.persistLocal (kebabToCamelCase varName)
         else Listener.persistSession (kebabToCamelCase varName)] := by
      rw [← hSP, addListener_sigListeners_self _ _ _ _ (by rw [hv3]; omega), hv5]
      rfl
    have hSPst : storeOf u l SP = storeOf u l st := by
      have h1 : SP.urlParams = st.urlParams := by
        rw [← hSP, (addListener_stores _ _ _ _).1, hv10, hpF.urlEq]
      have h2 : SP.localStorage = st.localStorage := by
        rw [← hSP, (addListener_stores _ _ _ _).2.1, hv11, hpF.localEq]
      have h3 : SP.sessionStorage = st.sessionStorage := by
        rw [← hSP, (addListener_stores _ _ _ _).2.2, hv12, hpF.sessionEq]
      unfold storeOf
      rw [h1, h2, h3]
    refine ⟨SP, ?_, ?_, ?_, hSPst, ?_⟩
    · rw [setupLetParsed_absent_eq (g + 1) st elemId u l s varName [] e [] c0 [c0] hpv hnone,
        letRegister_nodeps_flags_eq _ [] c0 elemId [c0] _ e _ u l hlk2, hSP]
    · rw [← hSP, addListener_evalLog, hv8, evalExpr_evalLog]
    · rw [readVar_some_eq SP c0 [] (kebabToCamelCase varName)
        (evalExpr st [c0] e).2.sigs.length rfl hSPvars, ← hSP, addListener_sigValue, hv4]
    · rw [persistListener_write_store g2 u l SP c0 (evalExpr st [c0] e).2.sigs.length
        (kebabToCamelCase varName) w hSPvars (by omega) hSPls, hSPst, lookup_storeSet_self]

/-- Witness for C5 at the session variant: a store that already holds
`x = "seven"`, and the bare root with an empty store. -/
theorem C5_persisted_let_initialization_witness :
    ((∀ sv, (storeOf false false exSess).lookup (kebabToCamelCase "x") = some sv →
      ∃ st', setupLetParsed (1 + 1) exSess 0 false false true "x" [] (.const (.num 7)) [] 0 [0]
          = some st' ∧
        st'.evalLog = exSess.evalLog ∧
        (readVar st' [0] (kebabToCamelCase "x")).1 = .str sv) ∧
    ((storeOf false false exSess).lookup (kebabToCamelCase "x") = none →
      ∃ st', setupLetParsed (1 + 1) exSess 0 false false true "x" [] (.const (.num 7)) [] 0 [0]
          = some st' ∧
        st'.evalLog = exSess.evalLog ++ [.const (.num 7)] ∧
        (readVar st' [0] (kebabToCamelCase "x")).1 = (evalExpr exSess [0] (.const (.num 7))).1 ∧
        storeOf false false st' = storeOf false false exSess ∧
        (storeOf false false (writeVar (1 + 2) st' [0] (kebabToCamelCase "x")
          (.str "W"))).lookup (kebabToCamelCase "x") = some (Val.str "W").toStr)) ∧
    ((∀ sv, (storeOf false false exRoot).lookup (kebabToCamelCase "x") = some sv →
      ∃ st', setupLetParsed (1 + 1) exRoot 0 false false true "x" [] (.const (.num 7)) [] 0 [0]
          = some st' ∧
        st'.evalLog = exRoot.evalLog ∧
        (readVar st' [0] (kebabToCamelCase "x")).1 = .str sv) ∧
    ((storeOf false false exRoot).lookup (kebabToCamelCase "x") = none →
      ∃ st', setupLetParsed (1 + 1) exRoot 0 false false true "x" [] (.const (.num 7)) [] 0 [0]
          = some st' ∧
        st'.evalLog = exRoot.evalLog ++ [.const (.num 7)] ∧
        (readVar st' [0] (kebabToCamelCase "x")).1 = (evalExpr exRoot [0] (.const (.num 7))).1 ∧
        storeOf false false st' = storeOf false false exRoot ∧
        (storeOf false false (writeVar (1 + 2) st' [0] (kebabToCamelCase "x")
          (.str "W"))).lookup (kebabToCamelCase "x") = some (Val.str "W").toStr)) :=
  ⟨C5_persisted_let_initialization false false true 1 1 exSess 0 0 "x" (.const (.num 7))
      (.str "W") (Or.inr (Or.inr rfl)) (by decide) (by decide) (fun x hx => nomatch hx),
   C5_persisted_let_initialization false false true 1 1 exRoot 0 0 "x" (.const (.num 7))
      (.str "W") (Or.inr (Or.inr rfl)) (by decide) (by decide) (fun x hx => nomatch hx)⟩

theorem constructComponent_singleton_eq (fuel : Nat) (st : St) (tId : Nat)
    (tChain : List Nat) (a : String) (e : Expr) :
    constructComponent fuel st tId tChain [(a, e)] [] =
      some (writeVar fuel (evalExpr (createStateSignals st).1 tChain e).2
          [st.scopes.length] a (evalExpr (createStateSignals st).1 tChain e).1,
        st.scopes.length,
        [(a, (evalExpr (createStateSignals st).1 tChain e).1)]) := by
  simp [constructComponent, constructDeclaredAttrs, setupLetAttrs, createStateSignals]

/-- C8 (amended): a component's declared external attribute's default
expression is evaluated against the template element's document scope
chain, and the resulting value becomes both the initial host attribute
value and the initial value of the component-scope variable. -/
theorem C8_declared_attr_initialization (g : Nat) (st : St) (templateElemId : Nat)
    (templateChain : List Nat) (a : String) (e : Expr)
    (hT : ∀ i, i ∈ templateChain → i < st.scopes.length) :
    ∃ st2, constructComponent (g + 1) st templateElemId templateChain [(a, e)] [] =
        some (st2, st.scopes.length,
          [(a, (evalExpr (createStateSignals st).1 templateChain e).1)]) ∧
      (readVar st2 [st.scopes.length] a).1
        = (evalExpr (createStateSignals st).1 templateChain e).1 := by
  have hPvars : (createStateSignals st).1.scopeVars st.scopes.length = [] := by
    show ((st.scopes ++ [({ vars := [], oldv := [] } : ScopeObj)]).getD st.scopes.length
      ({ vars := [], oldv := [] } : ScopeObj)).vars = []
    rw [getD_concat_self]
  have hnotMem : st.scopes.length ∉ templateChain := fun hmem =>
    absurd (hT _ hmem) (by omega)
  have hQvars : ((evalExpr (createStateSignals st).1 templateChain e).2.scopeVars
      st.scopes.length).lookup a = none := by
    rw [evalExpr_scopeVars_not_mem _ templateChain e _ hnotMem, hPvars]
    rfl
  have hQscope : st.scopes.length
      < (evalExpr (createStateSignals st).1 templateChain e).2.scopes.length := by
    rw [(evalExpr_frame _ templateChain e).scopesLen]
    show st.scopes.length < (st.scopes ++ [({ vars := [], oldv := [] } : ScopeObj)]).length
    simp
  obtain ⟨hv1, _, _, hv4, _, _, _, _, _, _, _, _, _⟩ :=
    writeVar_fresh_facts g (evalExpr (createStateSignals st).1 templateChain e).2
      st.scopes.length a (evalExpr (createStateSignals st).1 templateChain e).1 hQvars hQscope
  refine ⟨_, constructComponent_singleton_eq (g + 1) st templateElemId templateChain a e, ?_⟩
  have hlk : ((writeVar (g + 1) (evalExpr (createStateSignals st).1 templateChain e).2
      [st.scopes.length] a (evalExpr (createStateSignals st).1 templateChain e).1).scopeVars
      st.scopes.length).lookup a = some
      (evalExpr (createStateSignals st).1 templateChain e).2.sigs.length := by
    rw [hv1, lookup_cons_self]
  rw [readVar_some_eq _ st.scopes.length [] a
    (evalExpr (createStateSignals st).1 templateChain e).2.sigs.length rfl hlk, hv4]

/-- Witness for C8: the `exTmpl` document (template scope declares `x = 5`)
and the declared attribute `foo` defaulting to `x`. -/
theorem C8_declared_attr_initialization_witness :
    ∃ st2, constructComponent (4 + 1) exTmpl 0 [0] [("foo", .read "x")] [] =
        some (st2, exTmpl.scopes.length,
          [("foo", (evalExpr (createStateSignals exTmpl).1 [0] (.read "x")).1)]) ∧
      (readVar st2 [exTmpl.scopes.length] "foo").1
        = (evalExpr (createStateSignals exTmpl).1 [0] (.read "x")).1 :=
  C8_declared_attr_initialization 4 exTmpl 0 [0] "foo" (.read "x")
    (fun i hi => by cases hi with
      | head => decide
      | tail _ h => cases h)

theorem anw_of_frame {st st' : St} (h : ReadFrame st st') (hNW : AllNoWrite st) :
    AllNoWrite st' := by
  intro i l hmem
  rcases h.listenersFrame i with he | he
  · rw [he] at hmem
    exact hNW i l hmem
  · rw [he] at hmem
    cases hmem

theorem addListener_anw (st : St) (sigId : Nat) (l : Listener) (ce : Option Nat)
    (hl : l.noWrite = true) (hNW : AllNoWrite st) : AllNoWrite (addListener st sigId l ce) := by
  intro i l2 hmem
  by_cases hlt : sigId < st.sigs.length
  · by_cases hij : sigId = i
    · subst hij
      rw [addListener_sigListeners_self _ _ _ _ hlt] at hmem
      rcases List.mem_append.mp hmem with hm | hm
      · exact hNW sigId l2 hm
      · rw [List.mem_singleton.mp hm]
        exact hl
    · rw [addListener_sigListeners_ne _ _ _ _ _ hij] at hmem
      exact hNW i l2 hmem
  · rw [addListener_sigListeners_of_ge _ _ _ _ _ (Nat.le_of_not_lt hlt)] at hmem
    exact hNW i l2 hmem

/-- A single-scope write in a document with only non-writing listeners:
the key becomes (or stays) resolvable in the written scope, other keys of
that scope are untouched, the scope table's size is unchanged, and no
writing listener appears. -/
theorem writeVar_anw_facts (g : Nat) (st : St) (sid : Nat) (k : String) (v : Val)
    (hScope : sid < st.scopes.length) (hNW : AllNoWrite st) :
    (∃ j, ((writeVar (g + 1) st [sid] k v).scopeVars sid).lookup k = some j) ∧
    (∀ n, n ≠ k → ((writeVar (g + 1) st [sid] k v).scopeVars sid).lookup n
      = (st.scopeVars sid).lookup n) ∧
    (writeVar (g + 1) st [sid] k v).scopes.length = st.scopes.length ∧
    AllNoWrite (writeVar (g + 1) st [sid] k v) := by
  cases hl : (st.scopeVars sid).lookup k with
  | none =>
    obtain ⟨hv1, _, hv3, _, hv5, hv6, _, _, hv9, _, _, _, _⟩ :=
      writeVar_fresh_facts g st sid k v hl hScope
    refine ⟨⟨st.sigs.length, by rw [hv1, lookup_cons_self]⟩, ?_, hv9, ?_⟩
    · intro n hn
      rw [hv1, lookup_cons_ne _ _ _ _ hn]
    · intro i l hmem
      rcases Nat.lt_trichotomy i st.sigs.length with hi | hi | hi
      · rw [hv6 i hi] at hmem
        exact hNW i l hmem
      · subst hi
        rw [hv5] at hmem
        cases hmem
      · rw [sigListeners_of_ge _ i (by rw [hv3]; omega)] at hmem
        cases hmem
  | some id =>
    rw [writeVar_local_existing g st sid [] k v id rfl hl]
    obtain ⟨hsigs, hscopes, _, _⟩ :=
      exec_emit_noWrite (st.sigListeners id) g
        ((st.setOldv sid k (st.sigValue id)).setSigValue id v) id
        (fun l hm => hNW id l hm)
    have hsv : ∀ j, (exec g ((st.setOldv sid k (st.sigValue id)).setSigValue id v)
        (.emit (st.sigListeners id) id)).scopeVars j = st.scopeVars j := by
      intro j
      rw [scopeVars_ext hscopes, scopeVars_setSigValue, scopeVars_setOldv]
    refine ⟨⟨id, by rw [hsv, hl]⟩, fun n _ => by rw [hsv], ?_, ?_⟩
    · rw [hscopes]
      simp [St.setSigValue, St.setOldv]
    · intro i l hmem
      rw [sigListeners_ext hsigs, sigListeners_setSigValue, sigListeners_setOldv] at hmem
      exact hNW i l hmem

theorem setupLetParsed_val_some_eq (fuel : Nat) (st : St) (elemId : Nat) (u l s : Bool)
    (varName : String) (deps : List String) (e : Expr) (ps : List (String × Nat))
    (scopeId : Nat) (chain : List Nat) (sv : String)
    (h : (if u then st.urlParams.lookup (kebabToCamelCase varName)
      else if l then st.localStorage.lookup (kebabToCamelCase varName)
      else if s then st.sessionStorage.lookup (kebabToCamelCase varName)
      else none) = some sv) :
    setupLetParsed fuel st elemId u l s varName deps e ps scopeId chain =
      letRegister (writeVar fuel st chain (kebabToCamelCase varName) (Val.str sv)) ps
        scopeId elemId chain (kebabToCamelCase varName) e deps u l := by
  simp only [setupLetParsed, h]

theorem setupLetParsed_val_none_eq (fuel : Nat) (st : St) (elemId : Nat) (u l s : Bool)
    (varName : String) (deps : List String) (e : Expr) (ps : List (String × Nat))
    (scopeId : Nat) (chain : List Nat)
    (h : (if u then st.urlParams.lookup (kebabToCamelCase varName)
      else if l then st.localStorage.lookup (kebabToCamelCase varName)
      else if s then st.sessionStorage.lookup (kebabToCamelCase varName)
      else none) = none) :
    setupLetParsed fuel st elemId u l s varName deps e ps scopeId chain =
      letRegister
        (writeVar fuel (evalExpr st chain e).2 chain (kebabToCamelCase varName)
          (evalExpr st chain e).1) ps scopeId elemId chain (kebabToCamelCase varName) e deps
        u l := by
  simp only [setupLetParsed, h]

/-- A dependency-free `#let` of any persistence variant, set up against a
document whose listeners are all non-writing, succeeds and neither
resolves nor declares any other name in the scope it writes. -/
theorem setupLetParsed_isolation (g : Nat) (stX : St) (elemId : Nat) (u l s : Bool)
    (varName : String) (e : Expr) (sid : Nat) (n : String)
    (hScope : sid < stX.scopes.length) (hNW : AllNoWrite stX)
    (hn1 : kebabToCamelCase varName ≠ n)
    (hn2 : ∀ x, e = .read x → x ≠ n)
    (hn : (stX.scopeVars sid).lookup n = none) :
    ∃ stY, setupLetParsed (g + 1) stX elemId u l s varName [] e (stX.scopeVars sid) sid [sid]
        = some stY ∧
      (stY.scopeVars sid).lookup n = none ∧ sid < stY.scopes.length ∧ AllNoWrite stY := by
  have hlNW : (if u then Listener.persistUrl (kebabToCamelCase varName)
      else if l then Listener.persistLocal (kebabToCamelCase varName)
      else Listener.persistSession (kebabToCamelCase varName)).noWrite = true := by
    cases u
    · cases l
      · rfl
      · rfl
    · rfl
  cases hval : (if u then stX.urlParams.lookup (kebabToCamelCase varName)
      else if l then stX.localStorage.lookup (kebabToCamelCase varName)
      else if s then stX.sessionStorage.lookup (kebabToCamelCase varName)
      else none) with
  | some sv =>
    obtain ⟨⟨j, hj⟩, hpres, hlen, hanw⟩ :=
      writeVar_anw_facts g stX sid (kebabToCamelCase varName) (Val.str sv) hScope hNW
    obtain ⟨j2, hj2⟩ : ∃ j2, lookupSig (writeVar (g + 1) stX [sid] (kebabToCamelCase varName)
        (Val.str sv)) (stX.scopeVars sid) sid (kebabToCamelCase varName) = some j2 := by
      cases hps : (stX.scopeVars sid).lookup (kebabToCamelCase varName) with
      | some id => exact ⟨id, by simp [lookupSig, hps]⟩
      | none => exact ⟨j, by simp [lookupSig, hps, hj]⟩
    refine ⟨addListener (writeVar (g + 1) stX [sid] (kebabToCamelCase varName) (Val.str sv))
      j2 (if u then Listener.persistUrl (kebabToCamelCase varName)
        else if l then Listener.persistLocal (kebabToCamelCase varName)
        else Listener.persistSession (kebabToCamelCase varName)) (some elemId),
      ?_, ?_, ?_, ?_⟩
    · rw [setupLetParsed_val_some_eq (g + 1) stX elemId u l s varName [] e
        (stX.scopeVars sid) sid [sid] sv hval]
      exact letRegister_nodeps_flags_eq _ _ sid elemId [sid] _ e j2 u l hj2
    · rw [addListener_scopeVars, hpres n (Ne.symm hn1)]
      exact hn
    · rw [addListener_scopes_length, hlen]
      exact hScope
    · exact addListener_anw _ _ _ _ hlNW hanw
  | none =>
    have hF := evalExpr_frame stX [sid] e
    have hanw1 : AllNoWrite (evalExpr stX [sid] e).2 := anw_of_frame hF hNW
    have hscope1 : sid < (evalExpr stX [sid] e).2.scopes.length := by
      rw [hF.scopesLen]
      exact hScope
    have hnp : ((evalExpr stX [sid] e).2.scopeVars sid).lookup n = none := by
      rw [evalExpr_lookup_ne stX [sid] e sid n (fun x hx => Ne.symm (hn2 x hx))]
      exact hn
    obtain ⟨⟨j, hj⟩, hpres, hlen, hanw⟩ :=
      writeVar_anw_facts g (evalExpr stX [sid] e).2 sid (kebabToCamelCase varName)
        (evalExpr stX [sid] e).1 hscope1 hanw1
    obtain ⟨j2, hj2⟩ : ∃ j2, lookupSig (writeVar (g + 1) (evalExpr stX [sid] e).2 [sid]
        (kebabToCamelCase varName) (evalExpr stX [sid] e).1) (stX.scopeVars sid) sid
        (kebabToCamelCase varName) = some j2 := by
      cases hps : (stX.scopeVars sid).lookup (kebabToCamelCase varName) with
      | some id => exact ⟨id, by simp [lookupSig, hps]⟩
      | none => exact ⟨j, by simp [lookupSig, hps, hj]⟩
    refine ⟨addListener (writeVar (g + 1) (evalExpr stX [sid] e).2 [sid]
        (kebabToCamelCase varName) (evalExpr stX [sid] e).1)
      j2 (if u then Listener.persistUrl (kebabToCamelCase varName)
        else if l then Listener.persistLocal (kebabToCamelCase varName)
        else Listener.persistSession (kebabToCamelCase varName)) (some elemId),
      ?_, ?_, ?_, ?_⟩
    · rw [setupLetParsed_val_none_eq (g + 1) stX elemId u l s varName [] e
        (stX.scopeVars sid) sid [sid] hval]
      exact letRegister_nodeps_flags_eq _ _ sid elemId [sid] _ e j2 u l hj2
    · rw [addListener_scopeVars, hpres n (Ne.symm hn1)]
      exact hnp
    · rw [addListener_scopes_length, hlen]
      exact hscope1
    · exact addListener_anw _ _ _ _ hlNW hanw

theorem setupLetAttr_isolation (g : Nat) (stX : St) (elemId : Nat) (attrName : String)
    (e : Expr) (sid : Nat) (n : String)
    (hScope : sid < stX.scopes.length) (hNW : AllNoWrite stX)
    (hdeps : letDeps attrName = [])
    (hn1 : letCasedName attrName ≠ n)
    (hn2 : ∀ x, e = .read x → x ≠ n)
    (hn : (stX.scopeVars sid).lookup n = none) :
    ∃ stY, setupLetAttr (g + 1) stX elemId attrName e (stX.scopeVars sid) sid [sid]
        = some stY ∧
      (stY.scopeVars sid).lookup n = none ∧ sid < stY.scopes.length ∧ AllNoWrite stY := by
  have heq : setupLetAttr (g + 1) stX elemId attrName e (stX.scopeVars sid) sid [sid] =
      setupLetParsed (g + 1) stX elemId ("#let-url".data.isPrefixOf attrName.data)
        ("#let-local".data.isPrefixOf attrName.data)
        ("#let-session".data.isPrefixOf attrName.data)
        ((splitOnChar '|' ((splitOnChar ':' attrName).getD 1 "")).headD "")
        (letDeps attrName) e (stX.scopeVars sid) sid [sid] := rfl
  rw [heq, hdeps]
  exact setupLetParsed_isolation g stX elemId _ _ _ _ e sid n hScope hNW hn1 hn2 hn

theorem setupLetAttrs_isolation (g : Nat) (elemId sid : Nat) (n : String) :
    ∀ (las : List (String × Expr)) (stX : St),
      sid < stX.scopes.length → AllNoWrite stX →
      (stX.scopeVars sid).lookup n = none →
      (∀ p ∈ las, letDeps p.1 = [] ∧ letCasedName p.1 ≠ n ∧ ∀ x, p.2 = .read x → x ≠ n) →
      ∃ stY, setupLetAttrs (g + 1) elemId sid [sid] stX las = some stY ∧
        (stY.scopeVars sid).lookup n = none ∧ sid < stY.scopes.length ∧ AllNoWrite stY := by
  intro las
  induction las with
  | nil =>
    intro stX h1 h2 h3 _
    exact ⟨stX, rfl, h3, h1, h2⟩
  | cons p rest ih =>
    intro stX h1 h2 h3 hps
    obtain ⟨pn, pe⟩ := p
    obtain ⟨hd, hc, hr⟩ := hps (pn, pe) (List.mem_cons_self _ _)
    obtain ⟨stY, hYeq, hy1, hy2, hy3⟩ :=
      setupLetAttr_isolation g stX elemId pn pe sid n h1 h2 hd hc hr h3
    obtain ⟨stZ, hZeq, hz⟩ := ih stY hy2 hy3 hy1
      (fun q hq => hps q (List.mem_cons_of_mem _ hq))
    refine ⟨stZ, ?_, hz⟩
    show (match setupLetAttr (g + 1) stX elemId pn pe (stX.scopeVars sid) sid [sid] with
      | none => none
      | some st2 => setupLetAttrs (g + 1) elemId sid [sid] st2 rest) = some stZ
    rw [hYeq]
    exact hZeq

theorem constructDeclaredAttrs_isolation (g : Nat) (tChain : List Nat) (sid : Nat)
    (n : String) (hmem : sid ∉ tChain) :
    ∀ (das : List (String × Expr)) (stX : St),
      sid < stX.scopes.length → AllNoWrite stX →
      (stX.scopeVars sid).lookup n = none →
      (∀ p ∈ das, p.1 ≠ n) →
      ((constructDeclaredAttrs (g + 1) stX tChain [sid] das).1.scopeVars sid).lookup n
          = none ∧
      sid < (constructDeclaredAttrs (g + 1) stX tChain [sid] das).1.scopes.length ∧
      AllNoWrite (constructDeclaredAttrs (g + 1) stX tChain [sid] das).1 := by
  intro das
  induction das with
  | nil =>
    intro stX h1 h2 h3 _
    exact ⟨h3, h1, h2⟩
  | cons p rest ih =>
    intro stX h1 h2 h3 hps
    obtain ⟨pn, pe⟩ := p
    have hF := evalExpr_frame stX tChain pe
    have ha1 : AllNoWrite (evalExpr stX tChain pe).2 := anw_of_frame hF h2
    have hs1 : sid < (evalExpr stX tChain pe).2.scopes.length := by
      rw [hF.scopesLen]
      exact h1
    have hn1 : ((evalExpr stX tChain pe).2.scopeVars sid).lookup n = none := by
      rw [evalExpr_scopeVars_not_mem _ tChain pe sid hmem]
      exact h3
    obtain ⟨_, hpres, hlen, hanw⟩ :=
      writeVar_anw_facts g (evalExpr stX tChain pe).2 sid pn (evalExpr stX tChain pe).1
        hs1 ha1
    have hnn : pn ≠ n := hps (pn, pe) (List.mem_cons_self _ _)
    have h3' : ((writeVar (g + 1) (evalExpr stX tChain pe).2 [sid] pn
        (evalExpr stX tChain pe).1).scopeVars sid).lookup n = none := by
      rw [hpres n (Ne.symm hnn)]
      exact hn1
    have h1' : sid < (writeVar (g + 1) (evalExpr stX tChain pe).2 [sid] pn
        (evalExpr stX tChain pe).1).scopes.length := by
      rw [hlen]
      exact hs1
    have hrec := ih (writeVar (g + 1) (evalExpr stX tChain pe).2 [sid] pn
        (evalExpr stX tChain pe).1) h1' hanw h3'
      (fun q hq => hps q (List.mem_cons_of_mem _ hq))
    have heq : (constructDeclaredAttrs (g + 1) stX tChain [sid] ((pn, pe) :: rest)).1 =
        (constructDeclaredAttrs (g + 1)
          (writeVar (g + 1) (evalExpr stX tChain pe).2 [sid] pn (evalExpr stX tChain pe).1)
          tChain [sid] rest).1 := rfl
    rw [heq]
    exact hrec

theorem constructComponent_eq (fuel : Nat) (st : St) (tId : Nat) (tChain : List Nat)
    (das las : List (String × Expr)) :
    constructComponent fuel st tId tChain das las =
      match setupLetAttrs fuel tId st.scopes.length [st.scopes.length]
        (constructDeclaredAttrs fuel (createStateSignals st).1 tChain
          [st.scopes.length] das).1 las with
      | none => none
      | some st2 => some (st2, st.scopes.length,
          (constructDeclaredAttrs fuel (createStateSignals st).1 tChain
            [st.scopes.length] das).2) := rfl

/-- C4: the component scope is an isolated root — with the instantiating
document arbitrary (any scopes, signals and values, all listeners
non-writing), constructing a component whose declared attributes and
dependency-free `#let` attributes do not themselves introduce the name `n`
succeeds, and a read of `n` inside the component scope yields `undefined`,
regardless of what the instantiating context defines under `n`: the read's
result is the same constant for every context, so nothing leaks in. -/
theorem C4_component_read_isolation (g : Nat) (st : St) (templateElemId : Nat)
    (templateChain : List Nat) (das las : List (String × Expr)) (n : String)
    (hT : ∀ i, i ∈ templateChain → i < st.scopes.length)
    (hNW : AllNoWrite st)
    (hdas : ∀ p ∈ das, p.1 ≠ n)
    (hlas : ∀ p ∈ las, letDeps p.1 = [] ∧ letCasedName p.1 ≠ n ∧
      ∀ x, p.2 = .read x → x ≠ n) :
    ∃ st2, constructComponent (g + 1) st templateElemId templateChain das las
        = some (st2, st.scopes.length,
            (constructDeclaredAttrs (g + 1) (createStateSignals st).1 templateChain
              [st.scopes.length] das).2) ∧
      (readVar st2 [st.scopes.length] n).1 = .undef := by
  have hmem : st.scopes.length ∉ templateChain := fun hm => absurd (hT _ hm) (by omega)
  have hP1 : st.scopes.length < (createStateSignals st).1.scopes.length := by
    show st.scopes.length < (st.scopes ++ [({ vars := [], oldv := [] } : ScopeObj)]).length
    simp
  have hP2 : AllNoWrite (createStateSignals st).1 := fun i l hm => hNW i l hm
  have hP3 : ((createStateSignals st).1.scopeVars st.scopes.length).lookup n = none := by
    have hv : (createStateSignals st).1.scopeVars st.scopes.length = [] := by
      show ((st.scopes ++ [({ vars := [], oldv := [] } : ScopeObj)]).getD st.scopes.length
        ({ vars := [], oldv := [] } : ScopeObj)).vars = []
      rw [getD_concat_self]
    rw [hv]
    rfl
  obtain ⟨hd1, hd2, hd3⟩ := constructDeclaredAttrs_isolation g templateChain st.scopes.length
    n hmem das (createStateSignals st).1 hP1 hP2 hP3 hdas
  obtain ⟨stY, hYeq, hy1, _, _⟩ := setupLetAttrs_isolation g templateElemId st.scopes.length
    n las (constructDeclaredAttrs (g + 1) (createStateSignals st).1 templateChain
      [st.scopes.length] das).1 hd2 hd3 hd1 hlas
  refine ⟨stY, ?_, ?_⟩
  · rw [constructComponent_eq (g + 1) st templateElemId templateChain das las, hYeq]
  · rw [readVar_fresh_eq stY st.scopes.length [] n rfl hy1]

/-- Witness for C4: the instantiating document `exTmpl` declares `x = 5`,
yet the constructed component (declared attribute `foo`, no `#let`
attributes) reads `x` as `undefined`. -/
theorem C4_component_read_isolation_witness :
    ∃ st2, constructComponent (1 + 1) exTmpl 0 [0] [("foo", .read "x")] []
        = some (st2, exTmpl.scopes.length,
            (constructDeclaredAttrs (1 + 1) (createStateSignals exTmpl).1 [0]
              [exTmpl.scopes.length] [("foo", .read "x")]).2) ∧
      (readVar st2 [exTmpl.scopes.length] "x").1 = .undef :=
  C4_component_read_isolation 1 exTmpl 0 [0] [("foo", .read "x")] [] "x"
    (fun i hi => by cases hi with
      | head => decide
      | tail _ h => cases h)
    (fun i l hmem => by cases i with
      | zero => exact absurd hmem (List.not_mem_nil _)
      | succ j => exact absurd hmem (List.not_mem_nil _))
    (fun p hp => by cases hp with
      | head => decide
      | tail _ h => cases h)
    (fun p hp => nomatch hp)

end HTMS
